import Mathlib

/-
Verification of the incremental-growth hash map iterator and lookup in
src/unsafe/randmap.go (constants and types at lines 61-201, `evacuated` at
203-206, `mapiterinit` at 216-254, `mapiternext` at 256-387, `mapaccessK` at
390-430).

Modelling notes for the shallow embedding:
- A bucket (`bmap`) is a record of three slot arrays; slot indices are
  natural numbers, and every access performed by the code is below
  `bucketCnt` (the code masks with `bucketCnt - 1` or bounds the loop).
- A bucket together with its overflow chain is a `List Bmap`; the empty
  list plays the role of a nil `*bmap`, and moving to the list tail is
  `b = b.overflow(t)`.  The bucket array of `2^B` chains is a function
  `Nat → List Bmap` (only indices below `2^B` are ever queried).
- `maptype` keeps the algorithmically relevant fields: the hash and
  equality functions of the key type and the `reflexivekey` flag.  The
  layout fields (`keysize`, `bucketsize`, `indirectkey`, ...) only drive
  pointer arithmetic and pointer indirection and have no counterpart in a
  value-level model.
- `hiter` keeps all fields except the GC bookkeeping (`t`, `h`,
  `overflow`); `t` and `h` are passed to `mapiternext` explicitly.
- Machine integers (`uintptr`, `uint8`, `uint32`) are modelled as `Nat`;
  the casts that truncate in Go (`uint8(hash >> 56)`, `uint32` draws)
  are modelled with explicit `% 256` / `% 2^32`.  No arithmetic in the
  modelled code paths overflows 64 bits for the word sizes the runtime
  supports, so no other wrap-around is inserted.
- The `goto next` loop of `mapiternext` is translated into: `scanSlots`
  (the `for ; i < bucketCnt; i++` slot loop, lines 297-383), `scanChain`
  (following the overflow chain, line 384-386), `selectBucket` (choosing
  the chain and `checkBucket` for a bucket index, lines 273-289) and the
  driver `iterNext` (the outer `next:` loop).  The driver carries a fuel
  counter that decreases at each bucket-advance step; `none` means the
  fuel ran out, which corresponds to the Go loop failing to terminate and
  is proved unreachable from every valid iterator state (claim C8).
-/

namespace Randmap

/-- Constants from src/unsafe/randmap.go lines 61-103. -/
def bucketCntBits : Nat := 3

def bucketCnt : Nat := 1 <<< bucketCntBits

def empty : Nat := 0

def evacuatedEmpty : Nat := 1

def evacuatedX : Nat := 2

def evacuatedY : Nat := 3

def minTopHash : Nat := 4

/-- `unsafe.Sizeof(uintptr(0))` on a 64-bit platform. -/
def ptrSize : Nat := 8

/-- Sentinel bucket ID for iterator checks (line 102). -/
def noCheck : Nat := 1 <<< (8 * ptrSize) - 1

variable {K V : Type}

/-- A bucket (`bmap`, line 131): `bucketCnt` status bytes, keys and values.
Only indices below `bucketCnt` are ever accessed. -/
structure Bmap (K V : Type) where
  tophash : Nat → Nat
  keys : Nat → K
  values : Nat → V

/-- The algorithmically relevant fields of `maptype` (line 160). -/
structure Maptype (K V : Type) where
  hash : K → Nat → Nat
  equal : K → K → Bool
  reflexivekey : Bool

/-- A header for a Go map (`hmap`, line 106).  `buckets` maps a bucket
index to that bucket's overflow chain. -/
structure Hmap (K V : Type) where
  count : Nat
  B : Nat
  hash0 : Nat
  buckets : Nat → List (Bmap K V)
  oldbuckets : Option (Nat → List (Bmap K V))
  nevacuate : Nat

/-- A hash iteration structure (`hiter`, line 143), minus the GC
bookkeeping fields `t`, `h` and `overflow`.  `bptr` is the suffix of the
current bucket chain whose head is the bucket `it.bptr` points at; `[]`
plays the role of a nil pointer. -/
structure Hiter (K V : Type) where
  key : Option K
  value : Option V
  buckets : Nat → List (Bmap K V)
  bptr : List (Bmap K V)
  startBucket : Nat
  offset : Nat
  wrapped : Bool
  B : Nat
  i : Nat
  bucket : Nat
  checkBucket : Nat

/-- `evacuated` (line 203). -/
def evacuated (b : Bmap K V) : Bool :=
  decide (empty < b.tophash 0 ∧ b.tophash 0 < minTopHash)

/-- `evacuated` applied to the bucket a chain starts with.  In Go the
bucket array always holds a bucket at each index, so the `[]` case never
arises for a chain taken from a bucket array. -/
def chainEvacuated : List (Bmap K V) → Bool
  | [] => false
  | b :: _ => evacuated b

/-- The `top` computation of `mapaccessK` (lines 404-407); the `uint8`
cast is the `% 256`. -/
def tophashOf (hash : Nat) : Nat :=
  let top := (hash >>> (ptrSize * 8 - 8)) % 256
  if top < minTopHash then top + minTopHash else top

/-- The inner slot loop of `mapaccessK` (lines 409-424), recursing on the
count of slots left to examine so that the kernel can evaluate it. -/
def accessSlotsGo (t : Maptype K V) (key : K) (top : Nat) (bm : Bmap K V) :
    Nat → Nat → Option (K × V)
  | 0, _ => none
  | n + 1, i =>
    if bm.tophash i ≠ top then accessSlotsGo t key top bm n (i + 1)
    else if t.equal key (bm.keys i) then some (bm.keys i, bm.values i)
    else accessSlotsGo t key top bm n (i + 1)

/-- The inner slot loop of `mapaccessK` starting at slot `i`: the loop
condition `i < bucketCnt` is the count of remaining slots reaching 0. -/
def accessSlots (t : Maptype K V) (key : K) (top : Nat) (bm : Bmap K V) (i : Nat) :
    Option (K × V) :=
  accessSlotsGo t key top bm (bucketCnt - i) i

/-- The outer chain loop of `mapaccessK` (lines 408-429). -/
def accessChain (t : Maptype K V) (key : K) (top : Nat) : List (Bmap K V) → Option (K × V)
  | [] => none
  | bm :: rest =>
    match accessSlots t key top bm 0 with
    | some kv => some kv
    | none => accessChain t key top rest

/-- `mapaccessK` (lines 390-430): returns both key and value; used by the
map iterator. -/
def mapaccessK (t : Maptype K V) (hopt : Option (Hmap K V)) (key : K) : Option (K × V) :=
  match hopt with
  | none => none
  | some h =>
    if h.count = 0 then none
    else
      let hash := t.hash key h.hash0
      let m := 1 <<< h.B - 1
      let b0 := h.buckets (hash &&& m)
      let b :=
        match h.oldbuckets with
        | none => b0
        | some old =>
          let oldb := old (hash &&& (m >>> 1))
          if ¬ chainEvacuated oldb then oldb else b0
      accessChain t key (tophashOf hash) b

/-- Bucket selection at the `next:` label of `mapiternext` (lines 273-289):
given the bucket index to visit, returns the chain to scan and the
`checkBucket` value for it. -/
def selectBucket (h : Hmap K V) (it : Hiter K V) (bucket : Nat) :
    List (Bmap K V) × Nat :=
  match h.oldbuckets with
  | some old =>
    if it.B = h.B then
      let oldbucket := bucket &&& (1 <<< (it.B - 1) - 1)
      let b := old oldbucket
      if ¬ chainEvacuated b then (b, bucket)
      else (it.buckets bucket, noCheck)
    else (it.buckets bucket, noCheck)
  | none => (it.buckets bucket, noCheck)

/-- The body of the slot loop of `mapiternext` for one slot (lines
301-374): `none` when the slot is skipped (empty status, `checkBucket`
filter, or deleted key on re-lookup), `some (k, v)` when visiting the
slot yields the entry `(k, v)` (for an evacuated slot with a reflexive
key, the re-looked-up live entry).  `s` is the rotated slot index `offi`
of line 298. -/
def slotYield (t : Maptype K V) (h : Hmap K V) (it : Hiter K V) (cb : Nat)
    (bm : Bmap K V) (s : Nat) : Option (K × V) :=
  let th := bm.tophash s
  let k := bm.keys s
  let v := bm.values s
  if th ≠ empty ∧ th ≠ evacuatedEmpty then
    let skip : Bool :=
      (cb != noCheck) &&
        (if t.reflexivekey || t.equal k k then
          ((t.hash k h.hash0) &&& (1 <<< it.B - 1)) != cb
        else
          (cb >>> (it.B - 1)) != (th &&& 1))
    if skip then none
    else if th ≠ evacuatedX ∧ th ≠ evacuatedY then some (k, v)
    else if t.reflexivekey || t.equal k k then mapaccessK t (some h) k
    else some (k, v)
  else none

/-- The slot loop of `mapiternext` (lines 297-383), recursing on the count
of slots left so that the kernel can evaluate it: run the slot body on
consecutive slots until it yields or the bucket is exhausted. -/
def scanSlotsGo (t : Maptype K V) (h : Hmap K V) (it : Hiter K V) (cb : Nat)
    (bm : Bmap K V) : Nat → Nat → Option (K × V × Nat)
  | 0, _ => none
  | n + 1, i =>
    match slotYield t h it cb bm ((i + it.offset) &&& (bucketCnt - 1)) with
    | some p => some (p.1, p.2, i + 1)
    | none => scanSlotsGo t h it cb bm n (i + 1)

/-- The slot loop of `mapiternext` starting at slot counter `i` (the loop
condition `i < bucketCnt` is the count of remaining slots reaching 0).  A
`some (k, v, i')` result is a yield: `k`/`v` are written to
`it.key`/`it.value` and `i'` (which is `i + 1`) to `it.i`. -/
def scanSlots (t : Maptype K V) (h : Hmap K V) (it : Hiter K V) (cb : Nat)
    (bm : Bmap K V) (i : Nat) : Option (K × V × Nat) :=
  scanSlotsGo t h it cb bm (bucketCnt - i) i

/-- Scanning a bucket chain: the slot loop on the head bucket, then
`b = b.overflow(t); i = 0; goto next` (lines 384-386).  A yield also
reports the chain suffix to store into `it.bptr`. -/
def scanChain (t : Maptype K V) (h : Hmap K V) (it : Hiter K V) (cb : Nat) :
    List (Bmap K V) → Nat → Option (K × V × List (Bmap K V) × Nat)
  | [], _ => none
  | bm :: rest, i =>
    match scanSlots t h it cb bm i with
    | some (k, v, i') => some (k, v, bm :: rest, i')
    | none => scanChain t h it cb rest 0

/-- One pass of the `next:` loop of `mapiternext` over the current chain:
scan it (lines 297-386); on a yield, store the iterator state (lines
375-381); if the chain is done and the cursor is back at `startBucket`
after wrapping, store exhaustion (lines 266-272).  `none` means the loop
must advance to the next bucket. -/
def iterStep (t : Maptype K V) (h : Hmap K V) (it : Hiter K V)
    (bucket : Nat) (b : List (Bmap K V)) (i cb : Nat) (w : Bool) :
    Option (Hiter K V) :=
  match scanChain t h it cb b i with
  | some (k, v, b', i') =>
    some { it with key := some k, value := some v, bucket := bucket, bptr := b',
                   i := i', checkBucket := cb, wrapped := w }
  | none =>
    if bucket = it.startBucket ∧ w = true then
      some { it with key := none, value := none, wrapped := w }
    else none

/-- The `next:` loop of `mapiternext` (lines 265-296) with an explicit
fuel counter for the bucket-advance steps (lines 273-295): select the
chain and `checkBucket` for the current bucket index, advance the cursor
(wrapping at `2^B` and recording the wrap), and scan again. -/
def iterNext (t : Maptype K V) (h : Hmap K V) (it : Hiter K V) :
    Nat → Nat → List (Bmap K V) → Nat → Nat → Bool → Option (Hiter K V)
  | 0, bucket, b, i, cb, w => iterStep t h it bucket b i cb w
  | fuel + 1, bucket, b, i, cb, w =>
    match iterStep t h it bucket b i cb w with
    | some it' => some it'
    | none =>
      let s := selectBucket h it bucket
      if bucket + 1 = 1 <<< it.B then iterNext t h it fuel 0 s.1 0 s.2 true
      else iterNext t h it fuel (bucket + 1) s.1 0 s.2 w

/-- `mapiternext` (lines 256-387).  The fuel `2 ^ (it.B + 1)` bounds the
number of bucket-advance steps of any terminating run (a full traversal
advances through at most `2 ^ it.B` buckets, and the loop can pass the
start bucket once before wrapping); `none` models divergence, which only
ill-formed iterator states can reach. -/
def mapiternext (t : Maptype K V) (h : Hmap K V) (it : Hiter K V) : Option (Hiter K V) :=
  iterNext t h it (2 ^ (it.B + 1)) it.bucket it.bptr it.i it.checkBucket it.wrapped

/-- `mapiterinit` (lines 216-254).  The two `rand.Uint32()` draws are
injected as `r1` and `r2` (each truncated to 32 bits as the type does in
Go); `it` is the iterator structure being initialised, whose untouched
numeric fields survive as in Go. -/
def mapiterinit (t : Maptype K V) (hopt : Option (Hmap K V)) (r1 r2 : Nat)
    (it : Hiter K V) : Option (Hiter K V) :=
  let it0 := { it with key := none, value := none, buckets := fun _ => [], bptr := [] }
  match hopt with
  | none => some it0
  | some h =>
    if h.count = 0 then some it0
    else
      let r := r1 % 2 ^ 32 + (if 31 - bucketCntBits < h.B then (r2 % 2 ^ 32) <<< 31 else 0)
      let it1 := { it0 with
        B := h.B
        buckets := h.buckets
        startBucket := r &&& (1 <<< h.B - 1)
        offset := (r >>> h.B) &&& (bucketCnt - 1)
        bucket := r &&& (1 <<< h.B - 1)
        wrapped := false
        bptr := [] }
      mapiternext t h it1

/-- The iterator state `mapiterinit` hands to `mapiternext` when the
table is non-empty (lines 233-252 of mapiterinit): cleared pointer
fields, snapshot of `B` and the bucket array, random start position. -/
def freshIter (h : Hmap K V) (r1 r2 : Nat) (it : Hiter K V) : Hiter K V :=
  let r := r1 % 2 ^ 32 + (if 31 - bucketCntBits < h.B then (r2 % 2 ^ 32) <<< 31 else 0)
  { it with
    key := none
    value := none
    B := h.B
    buckets := h.buckets
    startBucket := r &&& (1 <<< h.B - 1)
    offset := (r >>> h.B) &&& (bucketCnt - 1)
    bucket := r &&& (1 <<< h.B - 1)
    wrapped := false
    bptr := [] }

/-- A full traversal driver: record the current entry, advance, repeat
until the iterator reports exhaustion (`it.key = nil`), as Go's `range`
loop does.  `fuel` bounds the number of `mapiternext` calls; `none` means
the fuel ran out or an advance diverged. -/
def runIter (t : Maptype K V) (h : Hmap K V) : Nat → Hiter K V → Option (List (K × V))
  | 0, it =>
    match it.key, it.value with
    | some _, some _ => none
    | _, _ => some []
  | fuel + 1, it =>
    match it.key, it.value with
    | some k, some v =>
      (mapiternext t h it).bind (fun it' => (runIter t h fuel it').map (fun l => (k, v) :: l))
    | _, _ => some []

/-- The entries the slot loop yields from slot counter `i` on, in visit
order. -/
def slotsYields (t : Maptype K V) (h : Hmap K V) (it : Hiter K V) (cb : Nat)
    (bm : Bmap K V) (i : Nat) : List (K × V) :=
  (List.range' i (bucketCnt - i)).filterMap
    (fun j => slotYield t h it cb bm ((j + it.offset) &&& (bucketCnt - 1)))

/-- The entries a chain scan yields from position (`chain`, `i`) on. -/
def chainYields (t : Maptype K V) (h : Hmap K V) (it : Hiter K V) (cb : Nat) :
    List (Bmap K V) → Nat → List (K × V)
  | [], _ => []
  | bm :: rest, i => slotsYields t h it cb bm i ++ chainYields t h it cb rest 0

/-- The bucket indices the `next:` loop will still select, in order, from
loop state (`bucket`, `w`). -/
def pendingBuckets (it : Hiter K V) (bucket : Nat) (w : Bool) : List Nat :=
  if w then List.range' bucket (it.startBucket - bucket)
  else List.range' bucket (1 <<< it.B - bucket) ++ List.range' 0 it.startBucket

/-- All entries the iterator will yield from a given loop state on. -/
def stateYields (t : Maptype K V) (h : Hmap K V) (it : Hiter K V)
    (bucket : Nat) (b : List (Bmap K V)) (i cb : Nat) (w : Bool) : List (K × V) :=
  chainYields t h it cb b i ++
    (pendingBuckets it bucket w).flatMap
      (fun j => chainYields t h it (selectBucket h it j).2 (selectBucket h it j).1 0)

/-- All entries the iterator will yield after the entry it currently
reports. -/
def itYields (t : Maptype K V) (h : Hmap K V) (it : Hiter K V) : List (K × V) :=
  stateYields t h it it.bucket it.bptr it.i it.checkBucket it.wrapped

/-- Validity of an iterator loop state: the bucket cursor and the start
bucket are genuine bucket indices, and after wrapping the cursor has not
passed the start bucket.  `mapiterinit` establishes this and every yield
preserves it. -/
def validIt (it : Hiter K V) (bucket : Nat) (w : Bool) : Prop :=
  it.startBucket < 1 <<< it.B ∧ bucket < 1 <<< it.B ∧ (w = true → bucket ≤ it.startBucket)

/-- Number of bucket-advance steps left before the `next:` loop must
exhaust. -/
def iterFuel (it : Hiter K V) (bucket : Nat) (w : Bool) : Nat :=
  if w then it.startBucket - bucket else 1 <<< it.B - bucket + it.startBucket

/-- The filled slots of one bucket (status byte neither `empty` nor
`evacuatedEmpty`), in slot order. -/
def filledSlots (bm : Bmap K V) : List (K × V) :=
  (List.range bucketCnt).filterMap
    (fun s => if bm.tophash s ≠ empty ∧ bm.tophash s ≠ evacuatedEmpty then
        some (bm.keys s, bm.values s)
      else none)

/-- The filled slots of a whole bucket chain. -/
def chainFilled (c : List (Bmap K V)) : List (K × V) :=
  c.flatMap filledSlots

/-- The live entries of a table: every filled slot of the current bucket
array, plus, while a growth is in progress, every filled slot of the
not-yet-evacuated old buckets (entries of evacuated old buckets are stale
copies whose live versions sit in the current array). -/
def liveEntries (h : Hmap K V) : List (K × V) :=
  ((List.range (1 <<< h.B)).flatMap fun j => chainFilled (h.buckets j)) ++
    match h.oldbuckets with
    | none => []
    | some old =>
      (List.range (1 <<< (h.B - 1))).flatMap fun j =>
        if chainEvacuated (old j) then [] else chainFilled (old j)

/-- No slot of the chain carries an evacuation mark: each status byte is
`empty` or a normal filled tophash. -/
def chainNoEvacMarks (c : List (Bmap K V)) : Prop :=
  ∀ bm ∈ c, ∀ s < bucketCnt, bm.tophash s = empty ∨ minTopHash ≤ bm.tophash s

/-- Every slot of the chain is empty. -/
def chainAllEmpty (c : List (Bmap K V)) : Prop :=
  ∀ bm ∈ c, ∀ s < bucketCnt, bm.tophash s = empty

/-- Every filled slot of an old bucket chain whose key the runtime treats
as reflexive hashes back to that old bucket index. -/
def oldPlacement (t : Maptype K V) (h : Hmap K V) (c : List (Bmap K V)) (j : Nat) : Prop :=
  ∀ bm ∈ c, ∀ s < bucketCnt, bm.tophash s ≠ empty →
    (t.reflexivekey || t.equal (bm.keys s) (bm.keys s)) = true →
    (t.hash (bm.keys s) h.hash0) &&& (1 <<< (h.B - 1) - 1) = j

/-- Well-formedness of a table for a write-free traversal: current
buckets carry no evacuation marks; an empty table has no live entries;
and while growing (`oldbuckets` present): `B` is at least 1 and at most
63 (bucket indices are `uintptr`s below `2^63`), and every
not-yet-evacuated old bucket chain is uniformly un-evacuated, holds only
entries hashing back to it, and its two destination buckets in the
current array are still entirely empty (the runtime evacuates an old
bucket before writing to either destination). -/
def tableWF (t : Maptype K V) (h : Hmap K V) : Prop :=
  (∀ j < 1 <<< h.B, chainNoEvacMarks (h.buckets j)) ∧
  (h.count = 0 → liveEntries h = []) ∧
  (match h.oldbuckets with
   | none => True
   | some old =>
     1 ≤ h.B ∧ h.B ≤ 63 ∧
     ∀ j < 1 <<< (h.B - 1), chainEvacuated (old j) = false →
       chainNoEvacMarks (old j) ∧ oldPlacement t h (old j) j ∧
       chainAllEmpty (h.buckets j) ∧ chainAllEmpty (h.buckets (j + 1 <<< (h.B - 1))))

section WitnessData

/-- A `Maptype` over `Nat` keys with the identity hash and reflexive
decidable equality. -/
def tN : Maptype Nat Nat :=
  { hash := fun k _ => k, equal := fun a b => a == b, reflexivekey := true }

/-- A `Maptype` over `Nat` keys whose equality is never true: every key
behaves like a NaN (non-reflexive). -/
def tF : Maptype Nat Nat :=
  { hash := fun k _ => k, equal := fun _ _ => false, reflexivekey := false }

/-- A bucket with every slot empty. -/
def bmZero : Bmap Nat Nat :=
  { tophash := fun _ => 0, keys := fun _ => 0, values := fun _ => 0 }

/-- An un-evacuated old bucket holding keys 0 and 1 (values 10 and 11). -/
def bmOld : Bmap Nat Nat :=
  { tophash := fun s => if s < 2 then 4 else 0, keys := fun s => s,
    values := fun s => 10 + s }

/-- A growing table (`B = 1`, one old bucket, not yet evacuated): the two
current buckets are empty and the single old bucket holds keys 0 and 1. -/
def hG : Hmap Nat Nat :=
  { count := 2, B := 1, hash0 := 0, buckets := fun _ => [bmZero],
    oldbuckets := some (fun _ => [bmOld]), nevacuate := 0 }

/-- A blank iterator structure, as `new(hiter)` produces. -/
def itB : Hiter Nat Nat :=
  { key := none, value := none, buckets := fun _ => [], bptr := [],
    startBucket := 0, offset := 0, wrapped := false, B := 0, i := 0,
    bucket := 0, checkBucket := 0 }

/-- An iterator that snapshotted `hG` (as `mapiterinit` with `r = 0`
produces, before the first advance). -/
def itG : Hiter Nat Nat :=
  { itB with B := 1, buckets := hG.buckets }

/-- An evacuated old bucket: slot 0 holds a stale copy of key 2 (value
99) marked `evacuatedX`; the other slots are `evacuatedEmpty`. -/
def bmEvac : Bmap Nat Nat :=
  { tophash := fun s => if s = 0 then 2 else 1, keys := fun _ => 2,
    values := fun _ => 99 }

/-- The current bucket key 2 lives in after evacuation: slot 0 carries
its tag `tophashOf 2 = 4` and the live value 22. -/
def bmNew2 : Bmap Nat Nat :=
  { tophash := fun s => if s = 0 then 4 else 0, keys := fun _ => 2,
    values := fun _ => 22 }

/-- A growing table whose single old bucket is already evacuated: key 2
now lives in current bucket 0, and a stale copy sits in the old bucket. -/
def hE : Hmap Nat Nat :=
  { count := 1, B := 1, hash0 := 0,
    buckets := fun j => if j % 2 = 0 then [bmNew2] else [bmZero],
    oldbuckets := some (fun _ => [bmEvac]), nevacuate := 1 }

/-- An un-evacuated old bucket holding two non-reflexive (NaN-like) keys:
slot 0 with an even tophash, slot 1 with an odd one. -/
def bmNaN : Bmap Nat Nat :=
  { tophash := fun s => if s = 0 then 4 else if s = 1 then 5 else 0,
    keys := fun s => 100 + s, values := fun s => s }

/-- A growing table holding the two NaN-like entries of `bmNaN` in its
un-evacuated old bucket. -/
def hN : Hmap Nat Nat :=
  { count := 2, B := 1, hash0 := 0, buckets := fun _ => [bmZero],
    oldbuckets := some (fun _ => [bmNaN]), nevacuate := 0 }

/-- A table whose live-entry count is zero. -/
def hZ : Hmap Nat Nat :=
  { count := 0, B := 1, hash0 := 0, buckets := fun _ => [bmZero],
    oldbuckets := none, nevacuate := 0 }

end WitnessData

section Decidability

instance (c : List (Bmap K V)) : Decidable (chainNoEvacMarks c) := by
  unfold chainNoEvacMarks; infer_instance

instance (c : List (Bmap K V)) : Decidable (chainAllEmpty c) := by
  unfold chainAllEmpty; infer_instance

instance (t : Maptype K V) (h : Hmap K V) (c : List (Bmap K V)) (j : Nat) :
    Decidable (oldPlacement t h c j) := by
  unfold oldPlacement; infer_instance

instance (t : Maptype K V) (h : Hmap K V) [DecidableEq K] [DecidableEq V] :
    Decidable (tableWF t h) := by
  unfold tableWF
  cases h.oldbuckets <;> simp only <;> infer_instance

instance (it : Hiter K V) (bucket : Nat) (w : Bool) : Decidable (validIt it bucket w) := by
  unfold validIt; infer_instance

end Decidability

section Basics

theorem mask_eq_mod (x n : Nat) : x &&& (1 <<< n - 1) = x % 2 ^ n := by
  rw [Nat.one_shiftLeft]
  exact Nat.and_pow_two_sub_one_eq_mod x n

theorem bucketCnt_eq : bucketCnt = 8 := rfl

theorem noCheck_large : 2 ^ 63 ≤ noCheck := by
  unfold noCheck ptrSize
  rw [Nat.one_shiftLeft]
  norm_num

end Basics

section IterCharacterization

theorem scanSlots_stop (t : Maptype K V) (h : Hmap K V) (it : Hiter K V) (cb : Nat)
    (bm : Bmap K V) (i : Nat) (hge : bucketCnt ≤ i) :
    scanSlots t h it cb bm i = none := by
  unfold scanSlots
  rw [Nat.sub_eq_zero_of_le hge, scanSlotsGo]

theorem scanSlots_succ_none (t : Maptype K V) (h : Hmap K V) (it : Hiter K V) (cb : Nat)
    (bm : Bmap K V) (i : Nat) (hlt : i < bucketCnt)
    (hy : slotYield t h it cb bm ((i + it.offset) &&& (bucketCnt - 1)) = none) :
    scanSlots t h it cb bm i = scanSlots t h it cb bm (i + 1) := by
  unfold scanSlots
  rw [show bucketCnt - i = (bucketCnt - (i + 1)) + 1 by omega, scanSlotsGo]
  simp only [hy]

theorem scanSlots_succ_some (t : Maptype K V) (h : Hmap K V) (it : Hiter K V) (cb : Nat)
    (bm : Bmap K V) (i : Nat) (p : K × V) (hlt : i < bucketCnt)
    (hy : slotYield t h it cb bm ((i + it.offset) &&& (bucketCnt - 1)) = some p) :
    scanSlots t h it cb bm i = some (p.1, p.2, i + 1) := by
  unfold scanSlots
  rw [show bucketCnt - i = (bucketCnt - (i + 1)) + 1 by omega, scanSlotsGo]
  simp only [hy]

theorem slotsYields_stop (t : Maptype K V) (h : Hmap K V) (it : Hiter K V) (cb : Nat)
    (bm : Bmap K V) (i : Nat) (hge : bucketCnt ≤ i) :
    slotsYields t h it cb bm i = [] := by
  unfold slotsYields
  rw [Nat.sub_eq_zero_of_le hge]
  rfl

theorem slotsYields_succ_none (t : Maptype K V) (h : Hmap K V) (it : Hiter K V) (cb : Nat)
    (bm : Bmap K V) (i : Nat) (hlt : i < bucketCnt)
    (hy : slotYield t h it cb bm ((i + it.offset) &&& (bucketCnt - 1)) = none) :
    slotsYields t h it cb bm i = slotsYields t h it cb bm (i + 1) := by
  unfold slotsYields
  rw [show bucketCnt - i = (bucketCnt - (i + 1)) + 1 by omega, List.range'_succ,
    List.filterMap_cons, hy]

theorem slotsYields_succ_some (t : Maptype K V) (h : Hmap K V) (it : Hiter K V) (cb : Nat)
    (bm : Bmap K V) (i : Nat) (p : K × V) (hlt : i < bucketCnt)
    (hy : slotYield t h it cb bm ((i + it.offset) &&& (bucketCnt - 1)) = some p) :
    slotsYields t h it cb bm i = p :: slotsYields t h it cb bm (i + 1) := by
  unfold slotsYields
  rw [show bucketCnt - i = (bucketCnt - (i + 1)) + 1 by omega, List.range'_succ,
    List.filterMap_cons, hy]

theorem scanSlots_char (t : Maptype K V) (h : Hmap K V) (it : Hiter K V) (cb : Nat)
    (bm : Bmap K V) (i : Nat) :
    (scanSlots t h it cb bm i = none ∧ slotsYields t h it cb bm i = []) ∨
    (∃ p i', scanSlots t h it cb bm i = some (p.1, p.2, i') ∧ i < i' ∧
      slotsYields t h it cb bm i = p :: slotsYields t h it cb bm i') := by
  have main : ∀ m i, bucketCnt - i ≤ m →
      (scanSlots t h it cb bm i = none ∧ slotsYields t h it cb bm i = []) ∨
      (∃ p i', scanSlots t h it cb bm i = some (p.1, p.2, i') ∧ i < i' ∧
        slotsYields t h it cb bm i = p :: slotsYields t h it cb bm i') := by
    intro m
    induction m with
    | zero =>
      intro i hi
      left
      have hge : bucketCnt ≤ i := by omega
      exact ⟨scanSlots_stop t h it cb bm i hge, slotsYields_stop t h it cb bm i hge⟩
    | succ m ih =>
      intro i hi
      by_cases hlt : i < bucketCnt
      · rcases hy : slotYield t h it cb bm ((i + it.offset) &&& (bucketCnt - 1)) with _ | p
        · rw [scanSlots_succ_none t h it cb bm i hlt hy,
            slotsYields_succ_none t h it cb bm i hlt hy]
          rcases ih (i + 1) (by omega) with hl | ⟨p, i', hs, hlt', hy'⟩
          · exact Or.inl hl
          · exact Or.inr ⟨p, i', hs, by omega, hy'⟩
        · right
          exact ⟨p, i + 1, scanSlots_succ_some t h it cb bm i p hlt hy, by omega,
            slotsYields_succ_some t h it cb bm i p hlt hy⟩
      · left
        have hge : bucketCnt ≤ i := by omega
        exact ⟨scanSlots_stop t h it cb bm i hge, slotsYields_stop t h it cb bm i hge⟩
  exact main bucketCnt i (by omega)

theorem scanChain_char (t : Maptype K V) (h : Hmap K V) (it : Hiter K V) (cb : Nat) :
    ∀ (c : List (Bmap K V)) (i : Nat),
    (scanChain t h it cb c i = none ∧ chainYields t h it cb c i = []) ∨
    (∃ p c' i', scanChain t h it cb c i = some (p.1, p.2, c', i') ∧
      chainYields t h it cb c i = p :: chainYields t h it cb c' i') := by
  intro c
  induction c with
  | nil => intro i; left; exact ⟨rfl, rfl⟩
  | cons bm rest ih =>
    intro i
    rcases scanSlots_char t h it cb bm i with ⟨hs, hy⟩ | ⟨p, i', hs, hlt, hy⟩
    · rcases ih 0 with ⟨hs', hy'⟩ | ⟨p, c', i', hs', hy'⟩
      · left
        constructor
        · rw [scanChain, hs, hs']
        · rw [chainYields, hy, hy', List.nil_append]
      · right
        refine ⟨p, c', i', ?_, ?_⟩
        · rw [scanChain, hs, hs']
        · rw [chainYields, hy, hy', List.nil_append]
    · right
      refine ⟨p, bm :: rest, i', ?_, ?_⟩
      · rw [scanChain, hs]
      · rw [chainYields, hy, chainYields, List.cons_append]

end IterCharacterization

section IterLoop

theorem pendingBuckets_exhaust (it : Hiter K V) :
    pendingBuckets it it.startBucket true = [] := by
  unfold pendingBuckets
  simp

theorem pendingBuckets_cons (it : Hiter K V) (bucket : Nat) (w : Bool)
    (hv : validIt it bucket w) (hne : ¬(bucket = it.startBucket ∧ w = true)) :
    pendingBuckets it bucket w =
      bucket :: (if bucket + 1 = 1 <<< it.B then pendingBuckets it 0 true
                 else pendingBuckets it (bucket + 1) w) := by
  obtain ⟨h1, h2, h3⟩ := hv
  cases w with
  | true =>
    have hlt : bucket < it.startBucket := by
      rcases Nat.lt_or_ge bucket it.startBucket with h | h
      · exact h
      · exact absurd ⟨Nat.le_antisymm (h3 rfl) h, rfl⟩ hne
    have hw : ¬(bucket + 1 = 1 <<< it.B) := by
      rw [Nat.one_shiftLeft] at h1 ⊢
      omega
    unfold pendingBuckets
    rw [if_neg hw, if_pos rfl, if_pos rfl,
      show it.startBucket - bucket = (it.startBucket - (bucket + 1)) + 1 by omega,
      List.range'_succ]
  | false =>
    unfold pendingBuckets
    rw [if_neg (by simp), show 1 <<< it.B - bucket = (1 <<< it.B - (bucket + 1)) + 1 by omega,
      List.range'_succ]
    by_cases hw : bucket + 1 = 1 <<< it.B
    · rw [if_pos hw, if_pos rfl, show 1 <<< it.B - (bucket + 1) = 0 by omega]
      simp
    · rw [if_neg hw, if_neg (by simp), List.cons_append]

theorem iterFuel_le (it : Hiter K V) (bucket : Nat) (w : Bool)
    (hv : validIt it bucket w) : iterFuel it bucket w ≤ 2 ^ (it.B + 1) := by
  obtain ⟨h1, h2, _⟩ := hv
  rw [Nat.one_shiftLeft] at h1 h2
  unfold iterFuel
  rw [Nat.one_shiftLeft, Nat.pow_succ]
  cases w <;> simp <;> omega

theorem iterStep_yield (t : Maptype K V) (h : Hmap K V) (it : Hiter K V)
    (bucket : Nat) (b : List (Bmap K V)) (i cb : Nat) (w : Bool)
    (p : K × V) (c' : List (Bmap K V)) (i' : Nat)
    (hs : scanChain t h it cb b i = some (p.1, p.2, c', i')) :
    iterStep t h it bucket b i cb w =
      some { it with key := some p.1, value := some p.2, bucket := bucket, bptr := c',
                     i := i', checkBucket := cb, wrapped := w } := by
  unfold iterStep
  simp only [hs]

theorem iterStep_exhaust (t : Maptype K V) (h : Hmap K V) (it : Hiter K V)
    (b : List (Bmap K V)) (i cb : Nat)
    (hs : scanChain t h it cb b i = none) :
    iterStep t h it it.startBucket b i cb true =
      some { it with key := none, value := none, wrapped := true } := by
  unfold iterStep
  simp only [hs]
  simp

theorem iterStep_advance (t : Maptype K V) (h : Hmap K V) (it : Hiter K V)
    (bucket : Nat) (b : List (Bmap K V)) (i cb : Nat) (w : Bool)
    (hs : scanChain t h it cb b i = none)
    (hne : ¬(bucket = it.startBucket ∧ w = true)) :
    iterStep t h it bucket b i cb w = none := by
  unfold iterStep
  simp only [hs]
  rw [if_neg hne]

theorem iterNext_of_step (t : Maptype K V) (h : Hmap K V) (it : Hiter K V)
    (bucket : Nat) (b : List (Bmap K V)) (i cb : Nat) (w : Bool)
    (it' : Hiter K V) (hstep : iterStep t h it bucket b i cb w = some it') :
    ∀ fuel, iterNext t h it fuel bucket b i cb w = some it' := by
  intro fuel
  cases fuel with
  | zero => rw [iterNext, hstep]
  | succ fuel =>
    rw [iterNext]
    simp only [hstep]

theorem iterNext_advance (t : Maptype K V) (h : Hmap K V) (it : Hiter K V)
    (fuel bucket : Nat) (b : List (Bmap K V)) (i cb : Nat) (w : Bool)
    (hstep : iterStep t h it bucket b i cb w = none) :
    iterNext t h it (fuel + 1) bucket b i cb w =
      (if bucket + 1 = 1 <<< it.B
       then iterNext t h it fuel 0 (selectBucket h it bucket).1 0 (selectBucket h it bucket).2 true
       else iterNext t h it fuel (bucket + 1) (selectBucket h it bucket).1 0 (selectBucket h it bucket).2 w) := by
  rw [iterNext]
  simp only [hstep]

theorem iterNext_char (t : Maptype K V) (h : Hmap K V) (it : Hiter K V) :
    ∀ (fuel bucket : Nat) (b : List (Bmap K V)) (i cb : Nat) (w : Bool),
    validIt it bucket w → iterFuel it bucket w ≤ fuel →
    (stateYields t h it bucket b i cb w = [] ∧
       iterNext t h it fuel bucket b i cb w =
         some { it with key := none, value := none, wrapped := true }) ∨
    (∃ p bucket' b' i' cb' w',
       stateYields t h it bucket b i cb w =
         p :: stateYields t h it bucket' b' i' cb' w' ∧
       iterNext t h it fuel bucket b i cb w =
         some { it with key := some p.1, value := some p.2, bucket := bucket', bptr := b',
                        i := i', checkBucket := cb', wrapped := w' } ∧
       validIt it bucket' w') := by
  intro fuel
  induction fuel with
  | zero =>
    intro bucket b i cb w hv hf
    rcases scanChain_char t h it cb b i with ⟨hs, hy⟩ | ⟨p, c', i', hs, hy⟩
    · -- with zero fuel the loop state must already be at the exhaustion point
      have hex : bucket = it.startBucket ∧ w = true := by
        obtain ⟨h1, h2, h3⟩ := hv
        rw [Nat.one_shiftLeft] at h1 h2
        unfold iterFuel at hf
        cases w
        · rw [if_neg Bool.false_ne_true, Nat.one_shiftLeft] at hf
          omega
        · rw [if_pos rfl] at hf
          have := h3 rfl
          exact ⟨by omega, rfl⟩
      obtain ⟨hb, hw⟩ := hex
      subst hb; subst hw
      left
      refine ⟨?_, iterNext_of_step t h it _ b i cb _ _
        (iterStep_exhaust t h it b i cb hs) 0⟩
      unfold stateYields
      rw [hy, pendingBuckets_exhaust, List.nil_append]
      rfl
    · right
      refine ⟨p, bucket, c', i', cb, w, ?_, iterNext_of_step t h it bucket b i cb w _
        (iterStep_yield t h it bucket b i cb w p c' i' hs) 0, hv⟩
      unfold stateYields
      rw [hy, List.cons_append]
  | succ fuel ih =>
    intro bucket b i cb w hv hf
    rcases scanChain_char t h it cb b i with ⟨hs, hy⟩ | ⟨p, c', i', hs, hy⟩
    · by_cases hex : bucket = it.startBucket ∧ w = true
      · obtain ⟨hb, hw⟩ := hex
        subst hb; subst hw
        left
        refine ⟨?_, iterNext_of_step t h it _ b i cb _ _
          (iterStep_exhaust t h it b i cb hs) (fuel + 1)⟩
        unfold stateYields
        rw [hy, pendingBuckets_exhaust, List.nil_append]
        rfl
      · -- advance to the next bucket
        have hstate : stateYields t h it bucket b i cb w =
            (if bucket + 1 = 1 <<< it.B
             then stateYields t h it 0 (selectBucket h it bucket).1 0 (selectBucket h it bucket).2 true
             else stateYields t h it (bucket + 1) (selectBucket h it bucket).1 0 (selectBucket h it bucket).2 w) := by
          unfold stateYields
          rw [hy, List.nil_append, pendingBuckets_cons it bucket w hv hex, List.flatMap_cons]
          by_cases hw : bucket + 1 = 1 <<< it.B
          · rw [if_pos hw, if_pos hw]
          · rw [if_neg hw, if_neg hw]
        have hnext := iterNext_advance t h it fuel bucket b i cb w
          (iterStep_advance t h it bucket b i cb w hs hex)
        obtain ⟨h1, h2, h3⟩ := hv
        by_cases hw : bucket + 1 = 1 <<< it.B
        · -- wrap around to bucket 0
          have hv' : validIt it 0 true := by
            refine ⟨h1, by rw [Nat.one_shiftLeft] at h1 ⊢; omega, fun _ => Nat.zero_le _⟩
          have hf' : iterFuel it 0 true ≤ fuel := by
            have hwf : w = false := by
              cases w
              · rfl
              · exfalso
                have := h3 rfl
                have hne : bucket ≠ it.startBucket := fun hb => hex ⟨hb, rfl⟩
                rw [Nat.one_shiftLeft] at h1 hw
                omega
            subst hwf
            unfold iterFuel at hf ⊢
            rw [if_neg Bool.false_ne_true] at hf
            rw [if_pos rfl]
            omega
          rw [hstate, if_pos hw, hnext, if_pos hw]
          exact ih 0 (selectBucket h it bucket).1 0 (selectBucket h it bucket).2 true hv' hf'
        · -- move to bucket + 1
          have hv' : validIt it (bucket + 1) w := by
            refine ⟨h1, by rw [Nat.one_shiftLeft] at h2 hw ⊢; omega, fun hwt => ?_⟩
            have := h3 hwt
            have hne : bucket ≠ it.startBucket := fun hb => hex ⟨hb, hwt⟩
            omega
          have hf' : iterFuel it (bucket + 1) w ≤ fuel := by
            unfold iterFuel at hf ⊢
            cases w
            · rw [if_neg Bool.false_ne_true] at hf ⊢
              rw [Nat.one_shiftLeft] at h2 hw ⊢
              omega
            · rw [if_pos rfl] at hf ⊢
              have := h3 rfl
              have hne : bucket ≠ it.startBucket := fun hb => hex ⟨hb, rfl⟩
              omega
          rw [hstate, if_neg hw, hnext, if_neg hw]
          exact ih (bucket + 1) (selectBucket h it bucket).1 0 (selectBucket h it bucket).2 w hv' hf'
    · right
      refine ⟨p, bucket, c', i', cb, w, ?_, iterNext_of_step t h it bucket b i cb w _
        (iterStep_yield t h it bucket b i cb w p c' i' hs) (fuel + 1), hv⟩
      unfold stateYields
      rw [hy, List.cons_append]

end IterLoop

section Traversal

theorem slotYield_reshape (t : Maptype K V) (h : Hmap K V) (it1 it2 : Hiter K V)
    (hB : it1.B = it2.B) (cb : Nat) (bm : Bmap K V) (s : Nat) :
    slotYield t h it1 cb bm s = slotYield t h it2 cb bm s := by
  unfold slotYield
  rw [hB]

theorem slotsYields_reshape (t : Maptype K V) (h : Hmap K V) (it1 it2 : Hiter K V)
    (hB : it1.B = it2.B) (hoff : it1.offset = it2.offset) (cb : Nat) (bm : Bmap K V) (i : Nat) :
    slotsYields t h it1 cb bm i = slotsYields t h it2 cb bm i := by
  unfold slotsYields
  rw [hoff]
  exact List.filterMap_congr (fun j _ => slotYield_reshape t h it1 it2 hB cb bm _)

theorem chainYields_reshape (t : Maptype K V) (h : Hmap K V) (it1 it2 : Hiter K V)
    (hB : it1.B = it2.B) (hoff : it1.offset = it2.offset) (cb : Nat) :
    ∀ (c : List (Bmap K V)) (i : Nat),
    chainYields t h it1 cb c i = chainYields t h it2 cb c i := by
  intro c
  induction c with
  | nil => intro i; rfl
  | cons bm rest ih =>
    intro i
    rw [chainYields, chainYields, slotsYields_reshape t h it1 it2 hB hoff, ih]

theorem selectBucket_reshape (h : Hmap K V) (it1 it2 : Hiter K V)
    (hB : it1.B = it2.B) (hbk : it1.buckets = it2.buckets) (bucket : Nat) :
    selectBucket h it1 bucket = selectBucket h it2 bucket := by
  unfold selectBucket
  rw [hB, hbk]

theorem pendingBuckets_reshape (it1 it2 : Hiter K V)
    (hB : it1.B = it2.B) (hsb : it1.startBucket = it2.startBucket) (bucket : Nat) (w : Bool) :
    pendingBuckets it1 bucket w = pendingBuckets it2 bucket w := by
  unfold pendingBuckets
  rw [hB, hsb]

theorem stateYields_reshape (t : Maptype K V) (h : Hmap K V) (it1 it2 : Hiter K V)
    (hB : it1.B = it2.B) (hoff : it1.offset = it2.offset)
    (hbk : it1.buckets = it2.buckets) (hsb : it1.startBucket = it2.startBucket)
    (bucket : Nat) (b : List (Bmap K V)) (i cb : Nat) (w : Bool) :
    stateYields t h it1 bucket b i cb w = stateYields t h it2 bucket b i cb w := by
  unfold stateYields
  rw [chainYields_reshape t h it1 it2 hB hoff, pendingBuckets_reshape it1 it2 hB hsb]
  congr 1
  refine List.flatMap_congr ?_ 
  intro j _
  rw [selectBucket_reshape h it1 it2 hB hbk, chainYields_reshape t h it1 it2 hB hoff]

theorem mapiternext_char (t : Maptype K V) (h : Hmap K V) (it : Hiter K V)
    (hv : validIt it it.bucket it.wrapped) :
    (itYields t h it = [] ∧
       mapiternext t h it = some { it with key := none, value := none, wrapped := true }) ∨
    (∃ p bucket' b' i' cb' w',
       itYields t h it = p :: stateYields t h it bucket' b' i' cb' w' ∧
       mapiternext t h it =
         some { it with key := some p.1, value := some p.2, bucket := bucket', bptr := b',
                        i := i', checkBucket := cb', wrapped := w' } ∧
       validIt it bucket' w') := by
  exact iterNext_char t h it (2 ^ (it.B + 1)) it.bucket it.bptr it.i it.checkBucket it.wrapped
    hv (iterFuel_le it it.bucket it.wrapped hv)

theorem runIter_char (t : Maptype K V) (h : Hmap K V) :
    ∀ (E : List (K × V)) (it : Hiter K V),
    validIt it it.bucket it.wrapped → itYields t h it = E →
    ∀ k v, it.key = some k → it.value = some v →
    runIter t h (E.length + 1) it = some ((k, v) :: E) := by
  intro E
  induction E with
  | nil =>
    intro it hv hE k v hk hval
    rcases mapiternext_char t h it hv with ⟨_, hnext⟩ | ⟨p, bucket', b', i', cb', w', hY, _, _⟩
    · rw [runIter.eq_def]
      simp only [hk, hval, hnext, Option.some_bind, List.length_nil]
      rw [runIter.eq_def]
      simp
    · rw [hE] at hY
      exact absurd hY (List.cons_ne_nil p _ ).symm.elim
  | cons q E' ih =>
    intro it hv hE k v hk hval
    rcases mapiternext_char t h it hv with ⟨hY, _⟩ | ⟨p, bucket', b', i', cb', w', hY, hnext, hv'⟩
    · rw [hE] at hY
      exact absurd hY (List.cons_ne_nil q E').elim
    · rw [hE] at hY
      injection hY with hq hY'
      subst hq
      -- the iterator mapiternext returns
      set it2 : Hiter K V :=
        { it with key := some q.1, value := some q.2, bucket := bucket', bptr := b',
                  i := i', checkBucket := cb', wrapped := w' } with hit2
      have hv2 : validIt it2 it2.bucket it2.wrapped := hv'
      have hY2 : itYields t h it2 = E' := by
        rw [hY']
        exact stateYields_reshape t h it2 it rfl rfl rfl rfl bucket' b' i' cb' w'
      have hrun := ih it2 hv2 hY2 q.1 q.2 rfl rfl
      rw [runIter.eq_def]
      simp only [List.length_cons, hk, hval, hnext, Option.some_bind, hrun]
      simp

end Traversal

section Accounting

theorem coe_flatMap {α : Type} (F : Nat → List α) :
    ∀ L : List Nat, (↑(L.flatMap F) : Multiset α) = (L.map fun j => (↑(F j) : Multiset α)).sum := by
  intro L
  induction L with
  | nil => rfl
  | cons a L ih =>
    rw [List.flatMap_cons, List.map_cons, List.sum_cons, ← ih, ← Multiset.coe_add]

theorem sum_map_add {α : Type} (A B : Nat → Multiset α) :
    ∀ L : List Nat, (L.map fun j => A j + B j).sum = (L.map A).sum + (L.map B).sum := by
  intro L
  induction L with
  | nil => simp
  | cons a L ih =>
    simp only [List.map_cons, List.sum_cons, ih]
    abel

theorem rot_perm (off : Nat) (hoff : off < 8) :
    ((List.range 8).map fun j => (j + off) &&& 7).Perm (List.range 8) := by
  interval_cases off <;> decide

theorem filterMap_partition (f1 f2 g : Nat → Option (K × V)) :
    ∀ L : List Nat,
    (∀ s ∈ L, (f1 s = g s ∧ f2 s = none) ∨ (f1 s = none ∧ f2 s = g s)) →
    (↑(L.filterMap f1) : Multiset (K × V)) + ↑(L.filterMap f2) = ↑(L.filterMap g) := by
  intro L
  induction L with
  | nil => intro _; rfl
  | cons a L ih =>
    intro hp
    have ihL := ih (fun s hs => hp s (List.mem_cons_of_mem a hs))
    rcases hp a (List.mem_cons_self a L) with ⟨h1, h2⟩ | ⟨h1, h2⟩
    · rcases hg : g a with _ | x
      · simp only [List.filterMap_cons, h1.trans hg, h2, hg]
        exact ihL
      · simp only [List.filterMap_cons, h1.trans hg, h2, hg, ← Multiset.cons_coe,
          Multiset.cons_add]
        rw [ihL]
    · rcases hg : g a with _ | x
      · simp only [List.filterMap_cons, h2.trans hg, h1, hg]
        exact ihL
      · simp only [List.filterMap_cons, h2.trans hg, h1, hg, ← Multiset.cons_coe,
          Multiset.add_cons]
        rw [ihL]

/-- The yield decision for a slot scanned with no `checkBucket` filter and
no evacuation mark: yield exactly the filled slots. -/
theorem slotYield_noCheck (t : Maptype K V) (h : Hmap K V) (it : Hiter K V)
    (bm : Bmap K V) (s : Nat)
    (hm : bm.tophash s = empty ∨ minTopHash ≤ bm.tophash s) :
    slotYield t h it noCheck bm s =
      (if bm.tophash s ≠ empty ∧ bm.tophash s ≠ evacuatedEmpty then
        some (bm.keys s, bm.values s) else none) := by
  unfold slotYield
  rcases hm with hm | hm
  · rw [if_neg (by simp [hm]), if_neg (by simp [hm, empty])]
  · have hne : bm.tophash s ≠ empty ∧ bm.tophash s ≠ evacuatedEmpty := by
      unfold empty evacuatedEmpty minTopHash at *
      omega
    rw [if_pos hne, if_pos hne]
    simp only [bne_self_eq_false, Bool.false_and, if_neg Bool.false_ne_true]
    rw [if_pos (by unfold evacuatedX evacuatedY minTopHash at *; omega)]

theorem slotsYields_noCheck (t : Maptype K V) (h : Hmap K V) (it : Hiter K V)
    (bm : Bmap K V) (hoff : it.offset < bucketCnt)
    (hm : ∀ s < bucketCnt, bm.tophash s = empty ∨ minTopHash ≤ bm.tophash s) :
    (slotsYields t h it noCheck bm 0).Perm (filledSlots bm) := by
  unfold slotsYields filledSlots
  rw [Nat.sub_zero, ← List.range_eq_range']
  have heq : (List.range bucketCnt).filterMap
      (fun j => slotYield t h it noCheck bm ((j + it.offset) &&& (bucketCnt - 1))) =
      ((List.range bucketCnt).map fun j => (j + it.offset) &&& (bucketCnt - 1)).filterMap
        (fun s => slotYield t h it noCheck bm s) := by
    rw [List.filterMap_map]
    rfl
  rw [heq]
  have hperm : (((List.range bucketCnt).map fun j => (j + it.offset) &&& (bucketCnt - 1)).filterMap
      (fun s => slotYield t h it noCheck bm s)).Perm
      ((List.range bucketCnt).filterMap (fun s => slotYield t h it noCheck bm s)) :=
    (rot_perm it.offset hoff).filterMap _
  refine hperm.trans ?_
  rw [List.filterMap_congr (fun s hs => slotYield_noCheck t h it bm s (hm s (List.mem_range.mp hs)))]

theorem chainYields_noCheck (t : Maptype K V) (h : Hmap K V) (it : Hiter K V)
    (hoff : it.offset < bucketCnt) :
    ∀ c : List (Bmap K V), chainNoEvacMarks c →
    (chainYields t h it noCheck c 0).Perm (chainFilled c) := by
  intro c
  induction c with
  | nil => intro _; exact List.Perm.refl _
  | cons bm rest ih =>
    intro hm
    rw [chainYields, chainFilled, List.flatMap_cons]
    exact ((slotsYields_noCheck t h it bm hoff
      (hm bm (List.mem_cons_self bm rest))).append
        (ih (fun b hb => hm b (List.mem_cons_of_mem bm hb))))

theorem chainFilled_allEmpty (c : List (Bmap K V)) (hc : chainAllEmpty c) :
    chainFilled c = [] := by
  induction c with
  | nil => rfl
  | cons bm rest ih =>
    rw [chainFilled, List.flatMap_cons]
    have h1 : filledSlots bm = [] := by
      unfold filledSlots
      rw [List.filterMap_eq_nil_iff.mpr]
      intro s hs
      rw [if_neg (by simp [hc bm (List.mem_cons_self bm rest) s (List.mem_range.mp hs)])]
    rw [h1, List.nil_append]
    exact ih (fun b hb => hc b (List.mem_cons_of_mem bm hb))

theorem mod_double_cases (y half j : Nat) (hh : 0 < half) (hy : y < half + half)
    (hmod : y % half = j) : y = j ∨ y = j + half := by
  rcases Nat.lt_or_ge y half with hlt | hge
  · left
    rw [Nat.mod_eq_of_lt hlt] at hmod
    omega
  · right
    have hz : y % half = y - half := by
      rw [show y = half + (y - half) by omega, Nat.add_mod_left,
        Nat.mod_eq_of_lt (by omega)]
      omega
    omega

theorem hash_mask_cases (it : Hiter K V) (x j : Nat) (hB1 : 1 ≤ it.B)
    (hj : j < 2 ^ (it.B - 1)) (hpl : x &&& (1 <<< (it.B - 1) - 1) = j) :
    x &&& (1 <<< it.B - 1) = j ∨ x &&& (1 <<< it.B - 1) = j + 2 ^ (it.B - 1) := by
  rw [mask_eq_mod] at hpl ⊢
  have hsplit : 2 ^ it.B = 2 ^ (it.B - 1) + 2 ^ (it.B - 1) := by
    rw [← Nat.two_mul, ← Nat.pow_succ']
    congr 1
    omega
  refine mod_double_cases (x % 2 ^ it.B) (2 ^ (it.B - 1)) j
    (Nat.pos_pow_of_pos _ (by norm_num)) ?_ ?_
  · rw [← hsplit]
    exact Nat.mod_lt x (Nat.pos_pow_of_pos _ (by norm_num))
  · rw [Nat.mod_mod_of_dvd x (Nat.pow_dvd_pow 2 (by omega))]
    exact hpl

theorem slotYield_partition (t : Maptype K V) (h : Hmap K V) (it : Hiter K V)
    (bm : Bmap K V) (j s : Nat)
    (hB1 : 1 ≤ it.B) (hB63 : it.B ≤ 63) (hj : j < 2 ^ (it.B - 1))
    (hm : bm.tophash s = empty ∨ minTopHash ≤ bm.tophash s)
    (hplace : bm.tophash s ≠ empty →
      (t.reflexivekey || t.equal (bm.keys s) (bm.keys s)) = true →
      (t.hash (bm.keys s) h.hash0) &&& (1 <<< (it.B - 1) - 1) = j) :
    (slotYield t h it j bm s =
        (if bm.tophash s ≠ empty ∧ bm.tophash s ≠ evacuatedEmpty then
          some (bm.keys s, bm.values s) else none) ∧
      slotYield t h it (j + 2 ^ (it.B - 1)) bm s = none) ∨
    (slotYield t h it j bm s = none ∧
      slotYield t h it (j + 2 ^ (it.B - 1)) bm s =
        (if bm.tophash s ≠ empty ∧ bm.tophash s ≠ evacuatedEmpty then
          some (bm.keys s, bm.values s) else none)) := by
  have hhalf : 0 < 2 ^ (it.B - 1) := Nat.pos_pow_of_pos _ (by norm_num)
  rcases hm with hm | hm
  · left
    constructor
    · unfold slotYield
      rw [if_neg (by simp [hm]), if_neg (by simp [hm, empty])]
    · unfold slotYield
      rw [if_neg (by simp [hm, empty])]
  · have hne : bm.tophash s ≠ empty ∧ bm.tophash s ≠ evacuatedEmpty := by
      unfold empty evacuatedEmpty minTopHash at *
      omega
    have hnoev : bm.tophash s ≠ evacuatedX ∧ bm.tophash s ≠ evacuatedY := by
      unfold evacuatedX evacuatedY minTopHash at *
      omega
    have hjnc : j ≠ noCheck := by
      have h1 := noCheck_large
      have h2 : 2 ^ (it.B - 1) ≤ 2 ^ 63 := Nat.pow_le_pow_right (by norm_num) (by omega)
      omega
    have hjhnc : j + 2 ^ (it.B - 1) ≠ noCheck := by
      have h1 := noCheck_large
      have h2 : 2 ^ (it.B - 1) ≤ 2 ^ 62 := Nat.pow_le_pow_right (by norm_num) (by omega)
      have h3 : (2 : Nat) ^ 62 + 2 ^ 62 ≤ 2 ^ 63 := by
        rw [← Nat.two_mul, ← Nat.pow_succ']
      omega
    rcases hrefl : (t.reflexivekey || t.equal (bm.keys s) (bm.keys s)) with _ | _
    · -- non-reflexive key: direction decided by the low bit of the status byte
      have hj0 : j >>> (it.B - 1) = 0 := by
        rw [Nat.shiftRight_eq_div_pow]
        exact Nat.div_eq_of_lt hj
      have hj1 : (j + 2 ^ (it.B - 1)) >>> (it.B - 1) = 1 := by
        rw [Nat.shiftRight_eq_div_pow, Nat.add_div_right j hhalf, Nat.div_eq_of_lt hj]
      have hreflP : ¬ ((t.reflexivekey || t.equal (bm.keys s) (bm.keys s)) = true) := by
        rw [hrefl]
        exact Bool.false_ne_true
      rcases Nat.mod_two_eq_zero_or_one (bm.tophash s) with hpar | hpar
      · left
        constructor
        · unfold slotYield
          rw [if_pos hne, if_neg hreflP, Nat.and_one_is_mod, hj0, hpar]
          rw [bne_self_eq_false, Bool.and_false, if_neg Bool.false_ne_true,
            if_pos hnoev, if_pos hne]
        · unfold slotYield
          rw [if_pos hne, if_neg hreflP, Nat.and_one_is_mod, hj1, hpar]
          rw [bne_iff_ne.mpr hjhnc, Bool.true_and, if_pos (bne_iff_ne.mpr (by norm_num))]
      · right
        constructor
        · unfold slotYield
          rw [if_pos hne, if_neg hreflP, Nat.and_one_is_mod, hj0, hpar]
          rw [bne_iff_ne.mpr hjnc, Bool.true_and, if_pos (bne_iff_ne.mpr (by norm_num))]
        · unfold slotYield
          rw [if_pos hne, if_neg hreflP, Nat.and_one_is_mod, hj1, hpar]
          rw [bne_self_eq_false, Bool.and_false, if_neg Bool.false_ne_true,
            if_pos hnoev, if_pos hne]
    · -- reflexive key: direction decided by re-hashing
      have hpl := hplace hne.1 hrefl
      rcases hash_mask_cases it (t.hash (bm.keys s) h.hash0) j hB1 hj hpl with hy | hy
      · left
        constructor
        · unfold slotYield
          rw [if_pos hne, if_pos hrefl, hy]
          rw [bne_self_eq_false, Bool.and_false, if_neg Bool.false_ne_true,
            if_pos hnoev, if_pos hne]
        · unfold slotYield
          rw [if_pos hne, if_pos hrefl, hy]
          rw [bne_iff_ne.mpr hjhnc, Bool.true_and, if_pos (bne_iff_ne.mpr (by omega))]
      · right
        constructor
        · unfold slotYield
          rw [if_pos hne, if_pos hrefl, hy]
          rw [bne_iff_ne.mpr hjnc, Bool.true_and, if_pos (bne_iff_ne.mpr (by omega))]
        · unfold slotYield
          rw [if_pos hne, if_pos hrefl, hy]
          rw [bne_self_eq_false, Bool.and_false, if_neg Bool.false_ne_true,
            if_pos hnoev, if_pos hne]

theorem slotsYields_partition (t : Maptype K V) (h : Hmap K V) (it : Hiter K V)
    (bm : Bmap K V) (j : Nat)
    (hoff : it.offset < bucketCnt) (hB1 : 1 ≤ it.B) (hB63 : it.B ≤ 63)
    (hj : j < 2 ^ (it.B - 1))
    (hm : ∀ s < bucketCnt, bm.tophash s = empty ∨ minTopHash ≤ bm.tophash s)
    (hplace : ∀ s < bucketCnt, bm.tophash s ≠ empty →
      (t.reflexivekey || t.equal (bm.keys s) (bm.keys s)) = true →
      (t.hash (bm.keys s) h.hash0) &&& (1 <<< (it.B - 1) - 1) = j) :
    (↑(slotsYields t h it j bm 0) : Multiset (K × V)) +
      ↑(slotsYields t h it (j + 2 ^ (it.B - 1)) bm 0) = ↑(filledSlots bm) := by
  have hrw : ∀ cb : Nat, slotsYields t h it cb bm 0 =
      ((List.range bucketCnt).map fun j' => (j' + it.offset) &&& (bucketCnt - 1)).filterMap
        (fun s => slotYield t h it cb bm s) := by
    intro cb
    unfold slotsYields
    rw [Nat.sub_zero, ← List.range_eq_range', List.filterMap_map]
    rfl
  rw [hrw, hrw]
  have hmem : ∀ s ∈ (List.range bucketCnt).map fun j' => (j' + it.offset) &&& (bucketCnt - 1),
      s < bucketCnt := by
    intro s hs
    rcases List.mem_map.mp hs with ⟨j', _, rfl⟩
    have : (j' + it.offset) &&& (bucketCnt - 1) ≤ bucketCnt - 1 := Nat.and_le_right
    omega
  rw [filterMap_partition _ _
      (fun s => if bm.tophash s ≠ empty ∧ bm.tophash s ≠ evacuatedEmpty then
        some (bm.keys s, bm.values s) else none) _
      (fun s hs => slotYield_partition t h it bm j s hB1 hB63 hj (hm s (hmem s hs))
        (hplace s (hmem s hs)))]
  refine Multiset.coe_eq_coe.mpr ?_
  refine ((rot_perm it.offset hoff).filterMap _).trans ?_
  unfold filledSlots
  exact List.Perm.refl _

theorem chainYields_partition (t : Maptype K V) (h : Hmap K V) (it : Hiter K V) (j : Nat)
    (hoff : it.offset < bucketCnt) (hB1 : 1 ≤ it.B) (hB63 : it.B ≤ 63)
    (hj : j < 2 ^ (it.B - 1)) :
    ∀ c : List (Bmap K V), chainNoEvacMarks c →
    (∀ bm ∈ c, ∀ s < bucketCnt, bm.tophash s ≠ empty →
      (t.reflexivekey || t.equal (bm.keys s) (bm.keys s)) = true →
      (t.hash (bm.keys s) h.hash0) &&& (1 <<< (it.B - 1) - 1) = j) →
    (↑(chainYields t h it j c 0) : Multiset (K × V)) +
      ↑(chainYields t h it (j + 2 ^ (it.B - 1)) c 0) = ↑(chainFilled c) := by
  intro c
  induction c with
  | nil => intro _ _; rfl
  | cons bm rest ih =>
    intro hm hplace
    rw [chainYields, chainYields, chainFilled, List.flatMap_cons,
      ← Multiset.coe_add, ← Multiset.coe_add, ← Multiset.coe_add]
    have hbm := slotsYields_partition t h it bm j hoff hB1 hB63 hj
      (hm bm (List.mem_cons_self bm rest)) (hplace bm (List.mem_cons_self bm rest))
    have hrest := ih (fun b hb => hm b (List.mem_cons_of_mem bm hb))
      (fun b hb => hplace b (List.mem_cons_of_mem bm hb))
    calc (↑(slotsYields t h it j bm 0) + ↑(chainYields t h it j rest 0) : Multiset (K × V)) +
          (↑(slotsYields t h it (j + 2 ^ (it.B - 1)) bm 0) +
            ↑(chainYields t h it (j + 2 ^ (it.B - 1)) rest 0))
        = (↑(slotsYields t h it j bm 0) + ↑(slotsYields t h it (j + 2 ^ (it.B - 1)) bm 0)) +
          (↑(chainYields t h it j rest 0) +
            ↑(chainYields t h it (j + 2 ^ (it.B - 1)) rest 0)) := by abel
      _ = ↑(filledSlots bm) + ↑(chainFilled rest) := by rw [hbm, hrest]

theorem pendingBuckets_fresh_perm (it : Hiter K V) (hsb : it.startBucket ≤ 1 <<< it.B) :
    (pendingBuckets it it.startBucket false).Perm (List.range (1 <<< it.B)) := by
  unfold pendingBuckets
  rw [if_neg (by simp)]
  refine List.perm_append_comm.trans ?_
  rw [List.range_eq_range']
  have happ := List.range'_append_1 0 it.startBucket (1 <<< it.B - it.startBucket)
  rw [Nat.zero_add] at happ
  rw [happ, show 1 <<< it.B - it.startBucket + it.startBucket = 1 <<< it.B by omega]

theorem shiftLeft_split (it : Hiter K V) (hB1 : 1 ≤ it.B) :
    1 <<< it.B = 1 <<< (it.B - 1) + 1 <<< (it.B - 1) := by
  rw [Nat.one_shiftLeft, Nat.one_shiftLeft, ← Nat.two_mul, ← Nat.pow_succ']
  congr 1
  omega

theorem selectBucket_none (h : Hmap K V) (it : Hiter K V) (j : Nat)
    (hob : h.oldbuckets = none) :
    selectBucket h it j = (it.buckets j, noCheck) := by
  unfold selectBucket
  rw [hob]

theorem selectBucket_unevac (h : Hmap K V) (it : Hiter K V) (j : Nat)
    (old : Nat → List (Bmap K V)) (hob : h.oldbuckets = some old) (hBeq : it.B = h.B)
    (hev : chainEvacuated (old (j &&& (1 <<< (it.B - 1) - 1))) = false) :
    selectBucket h it j = (old (j &&& (1 <<< (it.B - 1) - 1)), j) := by
  unfold selectBucket
  rw [hob]
  simp only [if_pos hBeq, hev]
  simp

theorem selectBucket_evac (h : Hmap K V) (it : Hiter K V) (j : Nat)
    (old : Nat → List (Bmap K V)) (hob : h.oldbuckets = some old) (hBeq : it.B = h.B)
    (hev : chainEvacuated (old (j &&& (1 <<< (it.B - 1) - 1))) = true) :
    selectBucket h it j = (it.buckets j, noCheck) := by
  unfold selectBucket
  rw [hob]
  simp only [if_pos hBeq, hev]
  simp

theorem mask_low (it : Hiter K V) (o : Nat) (ho : o < 1 <<< (it.B - 1)) :
    o &&& (1 <<< (it.B - 1) - 1) = o := by
  rw [mask_eq_mod]
  exact Nat.mod_eq_of_lt (by rw [← Nat.one_shiftLeft]; exact ho)

theorem mask_high (it : Hiter K V) (o : Nat) (ho : o < 1 <<< (it.B - 1)) :
    (1 <<< (it.B - 1) + o) &&& (1 <<< (it.B - 1) - 1) = o := by
  rw [mask_eq_mod, ← Nat.one_shiftLeft, Nat.add_mod_left]
  exact Nat.mod_eq_of_lt ho

theorem liveEntries_none (h : Hmap K V) (hob : h.oldbuckets = none) :
    liveEntries h = (List.range (1 <<< h.B)).flatMap fun j => chainFilled (h.buckets j) := by
  unfold liveEntries
  rw [hob, List.append_nil]

theorem liveEntries_some (h : Hmap K V) (old : Nat → List (Bmap K V))
    (hob : h.oldbuckets = some old) :
    liveEntries h = ((List.range (1 <<< h.B)).flatMap fun j => chainFilled (h.buckets j)) ++
      ((List.range (1 <<< (h.B - 1))).flatMap fun j =>
        if chainEvacuated (old j) then [] else chainFilled (old j)) := by
  unfold liveEntries
  rw [hob]

theorem stateYields_live (t : Maptype K V) (h : Hmap K V) (it : Hiter K V)
    (hBeq : it.B = h.B) (hbk : it.buckets = h.buckets)
    (hoff : it.offset < bucketCnt) (hsb : it.startBucket ≤ 1 <<< it.B)
    (wf : tableWF t h) (i0 cb0 : Nat) :
    (↑(stateYields t h it it.startBucket [] i0 cb0 false) : Multiset (K × V)) =
      ↑(liveEntries h) := by
  obtain ⟨wf1, _, wf3⟩ := wf
  unfold stateYields
  rw [show chainYields t h it cb0 [] i0 = [] from rfl, List.nil_append, coe_flatMap]
  rw [List.Perm.sum_eq ((pendingBuckets_fresh_perm it hsb).map _)]
  rcases hob : h.oldbuckets with _ | old
  · -- no growth in progress
    rw [liveEntries_none h hob, coe_flatMap, ← hBeq]
    refine congrArg List.sum (List.map_congr_left ?_)
    intro j hj
    rw [selectBucket_none h it j hob, hbk]
    exact Multiset.coe_eq_coe.mpr
      (chainYields_noCheck t h it hoff _ (wf1 j (by rw [← hBeq]; exact List.mem_range.mp hj)))
  · -- growth in progress
    rw [hob] at wf3
    obtain ⟨hB1, hB63, hold⟩ := wf3
    have hB1' : 1 ≤ it.B := by omega
    have hB63' : it.B ≤ 63 := by omega
    rw [liveEntries_some h old hob, ← Multiset.coe_add, coe_flatMap, coe_flatMap, ← hBeq]
    rw [← hBeq] at hold
    rw [shiftLeft_split it hB1', List.range_add, List.map_append, List.sum_append,
      List.map_append, List.sum_append, List.map_map, List.map_map]
    rw [← sum_map_add, ← sum_map_add, ← sum_map_add]
    refine congrArg List.sum (List.map_congr_left ?_)
    intro o ho'
    have ho : o < 1 <<< (it.B - 1) := List.mem_range.mp ho'
    have hmlo := mask_low it o ho
    have hmhi := mask_high it o ho
    have hoN : o < 1 <<< it.B := by
      rw [shiftLeft_split it hB1']
      omega
    have hoN2 : 1 <<< (it.B - 1) + o < 1 <<< it.B := by
      rw [shiftLeft_split it hB1']
      omega
    simp only [Function.comp]
    cases hev : chainEvacuated (old o) with
    | false =>
      obtain ⟨hmk, hpl, hem1, hem2⟩ := hold o ho hev
      rw [selectBucket_unevac h it o old hob hBeq (by rw [hmlo]; exact hev),
        selectBucket_unevac h it (1 <<< (it.B - 1) + o) old hob hBeq (by rw [hmhi]; exact hev),
        hmlo, hmhi]
      dsimp only
      have hpl' : ∀ bm ∈ old o, ∀ s < bucketCnt, bm.tophash s ≠ empty →
          (t.reflexivekey || t.equal (bm.keys s) (bm.keys s)) = true →
          (t.hash (bm.keys s) h.hash0) &&& (1 <<< (it.B - 1) - 1) = o := by
        intro bm hbm s hs hne hrefl
        rw [hBeq]
        exact hpl bm hbm s hs hne hrefl
      have hpart := chainYields_partition t h it o hoff hB1' hB63'
        (by rw [← Nat.one_shiftLeft]; exact ho) (old o) hmk hpl'
      rw [show (1 <<< (it.B - 1) + o) = o + 2 ^ (it.B - 1) by
        rw [Nat.one_shiftLeft]; omega]
      rw [if_neg Bool.false_ne_true]
      have hem2' : chainAllEmpty (h.buckets (o + 2 ^ (it.B - 1))) := by
        rw [show o + 2 ^ (it.B - 1) = o + 1 <<< (it.B - 1) by rw [Nat.one_shiftLeft]]
        exact hem2
      rw [chainFilled_allEmpty _ hem1, chainFilled_allEmpty _ hem2']
      rw [hpart]
      simp
    | true =>
      rw [selectBucket_evac h it o old hob hBeq (by rw [hmlo]; exact hev),
        selectBucket_evac h it (1 <<< (it.B - 1) + o) old hob hBeq (by rw [hmhi]; exact hev),
        hbk]
      rw [if_pos rfl]
      rw [Multiset.coe_eq_coe.mpr (chainYields_noCheck t h it hoff _
          (wf1 o (by rw [← hBeq]; exact hoN))),
        Multiset.coe_eq_coe.mpr (chainYields_noCheck t h it hoff _
          (wf1 (1 <<< (it.B - 1) + o) (by rw [← hBeq]; exact hoN2)))]
      simp

end Accounting

section InitRun

theorem mapiterinit_nil (t : Maptype K V) (r1 r2 : Nat) (it : Hiter K V) :
    mapiterinit t none r1 r2 it =
      some { it with key := none, value := none, buckets := fun _ => [], bptr := [] } := rfl

theorem mapiterinit_zero (t : Maptype K V) (h : Hmap K V) (r1 r2 : Nat) (it : Hiter K V)
    (hc : h.count = 0) :
    mapiterinit t (some h) r1 r2 it =
      some { it with key := none, value := none, buckets := fun _ => [], bptr := [] } := by
  unfold mapiterinit
  dsimp only
  rw [if_pos hc]

theorem mapiterinit_pos (t : Maptype K V) (h : Hmap K V) (r1 r2 : Nat) (it : Hiter K V)
    (hc : ¬ h.count = 0) :
    mapiterinit t (some h) r1 r2 it = mapiternext t h (freshIter h r1 r2 it) := by
  unfold mapiterinit freshIter
  dsimp only
  rw [if_neg hc]

theorem runIter_keyNone (t : Maptype K V) (h : Hmap K V) (it : Hiter K V)
    (hk : it.key = none) : ∀ fuel, runIter t h fuel it = some [] := by
  intro fuel
  cases fuel with
  | zero =>
    rw [runIter]
    simp only [hk]
  | succ fuel =>
    rw [runIter]
    simp only [hk]

theorem freshIter_valid (h : Hmap K V) (r1 r2 : Nat) (it : Hiter K V) :
    validIt (freshIter h r1 r2 it) (freshIter h r1 r2 it).bucket
      (freshIter h r1 r2 it).wrapped := by
  have hlt : ∀ r : Nat, r &&& (1 <<< h.B - 1) < 1 <<< h.B := by
    intro r
    have h1 : r &&& (1 <<< h.B - 1) ≤ 1 <<< h.B - 1 := Nat.and_le_right
    have h2 : 0 < 1 <<< h.B := by
      rw [Nat.one_shiftLeft]
      exact Nat.pos_pow_of_pos _ (by norm_num)
    omega
  refine ⟨hlt _, hlt _, fun hw => absurd hw (by simp [freshIter])⟩

theorem freshIter_offset (h : Hmap K V) (r1 r2 : Nat) (it : Hiter K V) :
    (freshIter h r1 r2 it).offset < bucketCnt := by
  have h1 : (freshIter h r1 r2 it).offset ≤ bucketCnt - 1 := Nat.and_le_right
  have h2 : 0 < bucketCnt := by rw [bucketCnt_eq]; norm_num
  omega

end InitRun

section LookupLemmas

theorem tophashOf_ge (hash : Nat) : minTopHash ≤ tophashOf hash := by
  unfold tophashOf minTopHash
  dsimp only
  split
  · omega
  · omega

theorem accessSlots_stop (t : Maptype K V) (key : K) (top : Nat) (bm : Bmap K V)
    (i : Nat) (hge : bucketCnt ≤ i) : accessSlots t key top bm i = none := by
  unfold accessSlots
  rw [Nat.sub_eq_zero_of_le hge, accessSlotsGo]

theorem accessSlots_finds (t : Maptype K V) (key : K) (top : Nat) (bm : Bmap K V) :
    ∀ i, (∃ s, i ≤ s ∧ s < bucketCnt ∧ bm.tophash s = top ∧ t.equal key (bm.keys s) = true) →
    (accessSlots t key top bm i).isSome := by
  have main : ∀ m i, bucketCnt - i ≤ m →
      (∃ s, i ≤ s ∧ s < bucketCnt ∧ bm.tophash s = top ∧ t.equal key (bm.keys s) = true) →
      (accessSlots t key top bm i).isSome := by
    intro m
    induction m with
    | zero =>
      intro i hi ⟨s, hs1, hs2, _, _⟩
      omega
    | succ m ih =>
      intro i hi ⟨s, hs1, hs2, hs3, hs4⟩
      have hlt : i < bucketCnt := by omega
      unfold accessSlots
      rw [show bucketCnt - i = (bucketCnt - (i + 1)) + 1 by omega, accessSlotsGo]
      by_cases htop : bm.tophash i = top
      · rw [if_neg (by simp [htop])]
        by_cases heq : t.equal key (bm.keys i) = true
        · rw [if_pos heq]
          rfl
        · rw [if_neg heq]
          rcases Nat.eq_or_lt_of_le hs1 with hcase | hcase
          · exact absurd (hcase ▸ hs4) heq
          · exact ih (i + 1) (by omega) ⟨s, by omega, hs2, hs3, hs4⟩
      · rw [if_pos (by simp [htop])]
        rcases Nat.eq_or_lt_of_le hs1 with hcase | hcase
        · exact absurd (hcase ▸ hs3) htop
        · exact ih (i + 1) (by omega) ⟨s, by omega, hs2, hs3, hs4⟩
  intro i
  exact main bucketCnt i (by omega)

theorem accessChain_finds (t : Maptype K V) (key : K) (top : Nat) :
    ∀ c : List (Bmap K V),
    (∃ bm ∈ c, ∃ s < bucketCnt, bm.tophash s = top ∧ t.equal key (bm.keys s) = true) →
    (accessChain t key top c).isSome := by
  intro c
  induction c with
  | nil =>
    intro ⟨bm, hbm, _⟩
    exact absurd hbm (List.not_mem_nil bm)
  | cons bm0 rest ih =>
    intro ⟨bm, hbm, s, hs, h3, h4⟩
    rw [accessChain]
    rcases List.mem_cons.mp hbm with rfl | hmem
    · have := accessSlots_finds t key top bm 0 ⟨s, Nat.zero_le s, hs, h3, h4⟩
      rcases ha : accessSlots t key top bm 0 with _ | kv
      · rw [ha] at this
        exact absurd this (by simp)
      · rfl
    · rcases ha : accessSlots t key top bm0 0 with _ | kv
      · exact ih ⟨bm, hmem, s, hs, h3, h4⟩
      · rfl

theorem mapaccessK_old (t : Maptype K V) (h : Hmap K V) (key : K)
    (old : Nat → List (Bmap K V)) (hob : h.oldbuckets = some old)
    (hc : ¬ h.count = 0)
    (hev : chainEvacuated (old ((t.hash key h.hash0) &&& ((1 <<< h.B - 1) >>> 1))) = false) :
    mapaccessK t (some h) key =
      accessChain t key (tophashOf (t.hash key h.hash0))
        (old ((t.hash key h.hash0) &&& ((1 <<< h.B - 1) >>> 1))) := by
  unfold mapaccessK
  dsimp only
  rw [if_neg hc, hob]
  simp only [hev]
  simp

theorem mapaccessK_new (t : Maptype K V) (h : Hmap K V) (key : K)
    (old : Nat → List (Bmap K V)) (hob : h.oldbuckets = some old)
    (hc : ¬ h.count = 0)
    (hev : chainEvacuated (old ((t.hash key h.hash0) &&& ((1 <<< h.B - 1) >>> 1))) = true) :
    mapaccessK t (some h) key =
      accessChain t key (tophashOf (t.hash key h.hash0))
        (h.buckets ((t.hash key h.hash0) &&& (1 <<< h.B - 1))) := by
  unfold mapaccessK
  dsimp only
  rw [if_neg hc, hob]
  simp only [hev]
  simp

end LookupLemmas


section Claims

/-- C1: for every well-formed table on which no writes occur during the
traversal (including a table with a partially-evacuated old bucket array),
creating an iterator with `mapiterinit` and repeatedly advancing with
`mapiternext` until exhaustion yields a list of entries that is a
permutation of the table's live entries — the multiset of yielded entries
equals the multiset of live entries — and if the live entries have
pairwise-distinct keys, no key is yielded twice. -/
theorem C1_full_traversal_yields_live_entries (t : Maptype K V) (h : Hmap K V)
    (r1 r2 : Nat) (it : Hiter K V) (wf : tableWF t h) :
    ∃ it0 out, mapiterinit t (some h) r1 r2 it = some it0 ∧
      runIter t h (liveEntries h).length it0 = some out ∧
      out.Perm (liveEntries h) ∧
      (((liveEntries h).map Prod.fst).Nodup → (out.map Prod.fst).Nodup) := by
  by_cases hc : h.count = 0
  · have hlive : liveEntries h = [] := wf.2.1 hc
    refine ⟨_, [], mapiterinit_zero t h r1 r2 it hc, ?_, ?_, ?_⟩
    · exact runIter_keyNone t h _ rfl _
    · rw [hlive]
    · intro _
      simp
  · set f := freshIter h r1 r2 it with hf
    have hv0 : validIt f f.bucket f.wrapped := freshIter_valid h r1 r2 it
    have hoff : f.offset < bucketCnt := freshIter_offset h r1 r2 it
    have haccount : (↑(itYields t h f) : Multiset (K × V)) = ↑(liveEntries h) :=
      stateYields_live t h f rfl rfl hoff (Nat.le_of_lt (freshIter_valid h r1 r2 it).1)
        wf it.i it.checkBucket
    rcases mapiternext_char t h f hv0 with ⟨hY, hnext⟩ | ⟨p, bucket', b', i', cb', w', hY, hnext, hv'⟩
    · -- the table has no live entries: exhausted immediately
      rw [hY] at haccount
      have hlive : liveEntries h = [] := by
        have := Multiset.coe_eq_coe.mp haccount
        exact (List.Perm.nil_eq this).symm
      refine ⟨{ f with key := none, value := none, wrapped := true }, [], ?_, ?_, ?_, ?_⟩
      · rw [mapiterinit_pos t h r1 r2 it hc, ← hf, hnext]
      · exact runIter_keyNone t h _ rfl _
      · rw [hlive]
      · intro _
        simp
    · -- at least one entry: run the traversal
      set it0 : Hiter K V :=
        { f with key := some p.1, value := some p.2, bucket := bucket', bptr := b',
                 i := i', checkBucket := cb', wrapped := w' } with hit0
      have hv0' : validIt it0 it0.bucket it0.wrapped := hv'
      have hY0 : itYields t h it0 = stateYields t h f bucket' b' i' cb' w' :=
        stateYields_reshape t h it0 f rfl rfl rfl rfl bucket' b' i' cb' w'
      have hrun := runIter_char t h (stateYields t h f bucket' b' i' cb' w') it0 hv0' hY0
        p.1 p.2 rfl rfl
      have hperm : ((p.1, p.2) :: stateYields t h f bucket' b' i' cb' w').Perm (liveEntries h) := by
        have : (↑(p :: stateYields t h f bucket' b' i' cb' w') : Multiset (K × V)) =
            ↑(liveEntries h) := by
          rw [← hY, haccount]
        have hp := Multiset.coe_eq_coe.mp this
        simpa using hp
      have hlen : (liveEntries h).length = (stateYields t h f bucket' b' i' cb' w').length + 1 := by
        have := hperm.length_eq
        simp at this
        omega
      refine ⟨it0, (p.1, p.2) :: stateYields t h f bucket' b' i' cb' w', ?_, ?_, hperm, ?_⟩
      · rw [mapiterinit_pos t h r1 r2 it hc, ← hf, hnext]
      · rw [hlen]
        exact hrun
      · intro hnd
        exact ((hperm.map Prod.fst).nodup_iff).mpr hnd

/-- C1 witness: the growing table `hG` (old bucket not yet evacuated,
holding keys 0 and 1) satisfies the well-formedness hypothesis, and the
theorem applies to it. -/
theorem C1_witness : tableWF tN hG ∧
    (∃ it0 out, mapiterinit tN (some hG) 0 0 itB = some it0 ∧
      runIter tN hG (liveEntries hG).length it0 = some out ∧
      out.Perm (liveEntries hG) ∧
      (((liveEntries hG).map Prod.fst).Nodup → (out.map Prod.fst).Nodup)) :=
  ⟨by decide, C1_full_traversal_yields_live_entries tN hG 0 0 itB (by decide)⟩

/-- C2: during advance, when a growth is in progress and the iterator's
snapshot `B` equals the current table's `B`, the bucket-selection step of
`mapiternext` picks the old bucket at index `bucket mod 2^(B-1)`: if that
old bucket is not evacuated it visits it and sets `checkBucket` to the new
bucket index being filled; if it is already evacuated it visits the new
bucket directly and sets `checkBucket` to the no-filter sentinel. -/
theorem C2_mid_growth_bucket_selection (h : Hmap K V) (it : Hiter K V) (bucket : Nat)
    (old : Nat → List (Bmap K V)) (hob : h.oldbuckets = some old) (hBeq : it.B = h.B) :
    (chainEvacuated (old (bucket % 2 ^ (it.B - 1))) = false →
      selectBucket h it bucket = (old (bucket % 2 ^ (it.B - 1)), bucket)) ∧
    (chainEvacuated (old (bucket % 2 ^ (it.B - 1))) = true →
      selectBucket h it bucket = (it.buckets bucket, noCheck)) := by
  have hmask : bucket &&& (1 <<< (it.B - 1) - 1) = bucket % 2 ^ (it.B - 1) :=
    mask_eq_mod bucket (it.B - 1)
  constructor
  · intro hev
    rw [selectBucket_unevac h it bucket old hob hBeq (by rw [hmask]; exact hev), hmask]
  · intro hev
    exact selectBucket_evac h it bucket old hob hBeq (by rw [hmask]; exact hev)

/-- C2 witness: on the growing table `hG` with its un-evacuated old
bucket, selecting new bucket 0 visits the old bucket with
`checkBucket = 0`. -/
theorem C2_witness :
    chainEvacuated ((fun _ => [bmOld]) (0 % 2 ^ (itG.B - 1))) = false ∧
    selectBucket hG itG 0 = ((fun _ => [bmOld]) (0 % 2 ^ (itG.B - 1)), 0) :=
  ⟨by decide, (C2_mid_growth_bucket_selection hG itG 0 (fun _ => [bmOld]) rfl rfl).1 (by decide)⟩

/-- C3: while `checkBucket` is active, a filled slot whose key the runtime
treats as reflexive is yielded exactly when re-hashing the key and
reducing modulo `2^B` (the code masks with `2^B - 1`) gives `checkBucket`;
otherwise the slot is skipped. -/
theorem C3_checkBucket_filters_by_rehash (t : Maptype K V) (h : Hmap K V) (it : Hiter K V)
    (cb : Nat) (bm : Bmap K V) (s : Nat)
    (hcb : cb ≠ noCheck) (hfill : minTopHash ≤ bm.tophash s)
    (hrefl : (t.reflexivekey || t.equal (bm.keys s) (bm.keys s)) = true) :
    (t.hash (bm.keys s) h.hash0 % 2 ^ it.B = cb →
       slotYield t h it cb bm s = some (bm.keys s, bm.values s)) ∧
    (t.hash (bm.keys s) h.hash0 % 2 ^ it.B ≠ cb → slotYield t h it cb bm s = none) := by
  have hne : bm.tophash s ≠ empty ∧ bm.tophash s ≠ evacuatedEmpty := by
    unfold empty evacuatedEmpty minTopHash at *
    omega
  have hnoev : bm.tophash s ≠ evacuatedX ∧ bm.tophash s ≠ evacuatedY := by
    unfold evacuatedX evacuatedY minTopHash at *
    omega
  constructor
  · intro hhash
    unfold slotYield
    rw [if_pos hne, if_pos hrefl, mask_eq_mod, hhash]
    rw [bne_self_eq_false, Bool.and_false, if_neg Bool.false_ne_true, if_pos hnoev]
  · intro hhash
    unfold slotYield
    rw [if_pos hne, if_pos hrefl, mask_eq_mod]
    rw [bne_iff_ne.mpr hcb, Bool.true_and, if_pos (bne_iff_ne.mpr hhash)]

/-- C3 witness: in `bmOld` under filter `checkBucket = 0`, the slot
holding key 0 (which re-hashes to 0) is yielded and the slot holding key 1
(which re-hashes to 1) is skipped. -/
theorem C3_witness :
    slotYield tN hG itG 0 bmOld 0 = some (bmOld.keys 0, bmOld.values 0) ∧
    slotYield tN hG itG 0 bmOld 1 = none :=
  ⟨(C3_checkBucket_filters_by_rehash tN hG itG 0 bmOld 0 (by decide) (by decide)
      (by decide)).1 (by decide),
    (C3_checkBucket_filters_by_rehash tN hG itG 0 bmOld 1 (by decide) (by decide)
      (by decide)).2 (by decide)⟩

/-- C4: a slot whose status byte is `evacuatedX` or `evacuatedY` holds a
moved entry: when its key is reflexive the advance re-looks it up in the
current table through `mapaccessK` and yields that result (so a `none`
lookup — deleted key — skips the slot), and when the key is non-reflexive
the advance yields the stale slot contents directly. -/
theorem C4_evacuated_slot_relookup (t : Maptype K V) (h : Hmap K V) (it : Hiter K V)
    (bm : Bmap K V) (s : Nat)
    (hev : bm.tophash s = evacuatedX ∨ bm.tophash s = evacuatedY) :
    ((t.reflexivekey || t.equal (bm.keys s) (bm.keys s)) = true →
      slotYield t h it noCheck bm s = mapaccessK t (some h) (bm.keys s)) ∧
    ((t.reflexivekey || t.equal (bm.keys s) (bm.keys s)) = false →
      slotYield t h it noCheck bm s = some (bm.keys s, bm.values s)) := by
  have hne : bm.tophash s ≠ empty ∧ bm.tophash s ≠ evacuatedEmpty := by
    unfold empty evacuatedEmpty evacuatedX evacuatedY at *
    omega
  have hnoev : ¬ (bm.tophash s ≠ evacuatedX ∧ bm.tophash s ≠ evacuatedY) := by
    unfold evacuatedX evacuatedY at *
    omega
  constructor
  · intro hrefl
    unfold slotYield
    rw [if_pos hne]
    simp only [bne_self_eq_false, Bool.false_and, if_neg Bool.false_ne_true]
    rw [if_neg hnoev, if_pos hrefl]
  · intro hrefl
    unfold slotYield
    rw [if_pos hne]
    simp only [bne_self_eq_false, Bool.false_and, if_neg Bool.false_ne_true]
    rw [if_neg hnoev, if_neg (by rw [hrefl]; exact Bool.false_ne_true)]

/-- C4 witness: the stale `evacuatedX` slot for key 2 in `hE` is resolved
through `mapaccessK`, which returns the live copy (value 22, not the
stale 99). -/
theorem C4_witness :
    slotYield tN hE itG noCheck bmEvac 0 = mapaccessK tN (some hE) (bmEvac.keys 0) ∧
    mapaccessK tN (some hE) (bmEvac.keys 0) = some (2, 22) :=
  ⟨(C4_evacuated_slot_relookup tN hE itG bmEvac 0 (by decide)).1 (by decide), by decide⟩

/-- C5: `mapiterinit` on a nil table or a table with zero live entries
returns an already-exhausted iterator (nil key and value) without
advancing; on a non-empty table it snapshots `B` and the bucket array,
derives `startBucket = r mod 2^B` and `offset = (r >> B) mod bucketCnt`
from the injected random draw `r` (a second 32-bit draw is added when `B`
exceeds 28), positions the cursor at `startBucket` un-wrapped, and
immediately performs one `mapiternext`; the exhausted iterator of the
empty cases yields nothing under the traversal driver. -/
theorem C5_mapiterinit_start_state (t : Maptype K V) (h : Hmap K V) (r1 r2 : Nat)
    (it : Hiter K V) :
    (mapiterinit t none r1 r2 it =
      some { it with key := none, value := none, buckets := fun _ => [], bptr := [] }) ∧
    (h.count = 0 → mapiterinit t (some h) r1 r2 it =
      some { it with key := none, value := none, buckets := fun _ => [], bptr := [] }) ∧
    (¬ h.count = 0 →
      mapiterinit t (some h) r1 r2 it = mapiternext t h (freshIter h r1 r2 it)) ∧
    ((freshIter h r1 r2 it).startBucket =
      (r1 % 2 ^ 32 + (if 31 - bucketCntBits < h.B then (r2 % 2 ^ 32) <<< 31 else 0)) % 2 ^ h.B) ∧
    ((freshIter h r1 r2 it).offset =
      ((r1 % 2 ^ 32 + (if 31 - bucketCntBits < h.B then (r2 % 2 ^ 32) <<< 31 else 0)) >>> h.B) %
        bucketCnt) ∧
    (freshIter h r1 r2 it).B = h.B ∧
    (freshIter h r1 r2 it).buckets = h.buckets ∧
    (freshIter h r1 r2 it).bucket = (freshIter h r1 r2 it).startBucket ∧
    (freshIter h r1 r2 it).wrapped = false ∧
    (freshIter h r1 r2 it).key = none ∧
    (freshIter h r1 r2 it).bptr = [] ∧
    (∀ fuel, runIter t h fuel
      { it with key := none, value := none, buckets := fun _ => [], bptr := [] } = some []) := by
  refine ⟨mapiterinit_nil t r1 r2 it, fun hc => mapiterinit_zero t h r1 r2 it hc,
    fun hc => mapiterinit_pos t h r1 r2 it hc, ?_, ?_, rfl, rfl, rfl, rfl, rfl, rfl,
    fun fuel => runIter_keyNone t h _ rfl fuel⟩
  · show (r1 % 2 ^ 32 + (if 31 - bucketCntBits < h.B then (r2 % 2 ^ 32) <<< 31 else 0)) &&&
      (1 <<< h.B - 1) = _
    rw [mask_eq_mod]
  · show (r1 % 2 ^ 32 + (if 31 - bucketCntBits < h.B then (r2 % 2 ^ 32) <<< 31 else 0)) >>> h.B &&&
      (bucketCnt - 1) = _
    rw [show bucketCnt - 1 = 1 <<< 3 - 1 from rfl, mask_eq_mod]
    rfl

/-- C5 witness: on the zero-count table `hZ` the iterator is exhausted at
once, and on the growing table `hG` initialisation is one advance from the
fresh snapshot state. -/
theorem C5_witness :
    (hZ.count = 0 ∧ mapiterinit tN (some hZ) 0 0 itB =
      some { itB with key := none, value := none, buckets := fun _ => [], bptr := [] }) ∧
    (¬ hG.count = 0 ∧
      mapiterinit tN (some hG) 0 0 itB = mapiternext tN hG (freshIter hG 0 0 itB)) :=
  ⟨⟨rfl, (C5_mapiterinit_start_state tN hZ 0 0 itB).2.1 rfl⟩,
    ⟨by decide, (C5_mapiterinit_start_state tN hG 0 0 itB).2.2.1 (by decide)⟩⟩

/-- C6: for a filled slot holding a non-reflexive (NaN-like) key scanned
while `checkBucket` is active, the slot is skipped exactly when
`checkBucket >> (B-1)` differs from the low bit of the status byte, and
consequently across the two destination buckets `j` and `j + 2^(B-1)` of
one old bucket the entry is yielded exactly once. -/
theorem C6_nonreflexive_key_low_bit (t : Maptype K V) (h : Hmap K V) (it : Hiter K V)
    (bm : Bmap K V) (s : Nat)
    (hrefl : (t.reflexivekey || t.equal (bm.keys s) (bm.keys s)) = false)
    (hfill : minTopHash ≤ bm.tophash s)
    (hB1 : 1 ≤ it.B) (hB63 : it.B ≤ 63) :
    (∀ cb, cb ≠ noCheck →
      (slotYield t h it cb bm s = none ↔ ¬ cb >>> (it.B - 1) = bm.tophash s &&& 1)) ∧
    (∀ j, j < 2 ^ (it.B - 1) →
      (slotYield t h it j bm s = some (bm.keys s, bm.values s) ∧
        slotYield t h it (j + 2 ^ (it.B - 1)) bm s = none) ∨
      (slotYield t h it j bm s = none ∧
        slotYield t h it (j + 2 ^ (it.B - 1)) bm s = some (bm.keys s, bm.values s))) := by
  have hne : bm.tophash s ≠ empty ∧ bm.tophash s ≠ evacuatedEmpty := by
    unfold empty evacuatedEmpty minTopHash at *
    omega
  have hnoev : bm.tophash s ≠ evacuatedX ∧ bm.tophash s ≠ evacuatedY := by
    unfold evacuatedX evacuatedY minTopHash at *
    omega
  have hreflP : ¬ ((t.reflexivekey || t.equal (bm.keys s) (bm.keys s)) = true) := by
    rw [hrefl]
    exact Bool.false_ne_true
  constructor
  · intro cb hcb
    by_cases hbit : cb >>> (it.B - 1) = bm.tophash s &&& 1
    · unfold slotYield
      rw [if_pos hne, if_neg hreflP, hbit]
      rw [bne_self_eq_false, Bool.and_false, if_neg Bool.false_ne_true, if_pos hnoev]
      simp [hbit]
    · unfold slotYield
      rw [if_pos hne, if_neg hreflP]
      rw [bne_iff_ne.mpr hcb, Bool.true_and, if_pos (bne_iff_ne.mpr hbit)]
      rw [Nat.and_one_is_mod] at hbit
      simp [hbit]
  · intro j hj
    have hg : (if bm.tophash s ≠ empty ∧ bm.tophash s ≠ evacuatedEmpty then
        some (bm.keys s, bm.values s) else none) = some (bm.keys s, bm.values s) := if_pos hne
    have hplace : bm.tophash s ≠ empty →
        (t.reflexivekey || t.equal (bm.keys s) (bm.keys s)) = true →
        (t.hash (bm.keys s) h.hash0) &&& (1 <<< (it.B - 1) - 1) = j := by
      intro _ habs
      exact absurd habs hreflP
    rcases slotYield_partition t h it bm j s hB1 hB63 hj (Or.inr hfill) hplace with
      ⟨h1, h2⟩ | ⟨h1, h2⟩
    · left
      rw [hg] at h1
      exact ⟨h1, h2⟩
    · right
      rw [hg] at h2
      exact ⟨h1, h2⟩

/-- C6 witness: in the NaN-holding old bucket `bmNaN` of table `hN`, the
even-status slot 0 is yielded at destination bucket 0 and skipped at
destination bucket 1, and the full traversal of `hN` yields both NaN-like
entries exactly once. -/
theorem C6_witness :
    (slotYield tF hN itG 0 bmNaN 0 = some (bmNaN.keys 0, bmNaN.values 0) ∧
      slotYield tF hN itG (0 + 2 ^ (itG.B - 1)) bmNaN 0 = none) ∨
    (slotYield tF hN itG 0 bmNaN 0 = none ∧
      slotYield tF hN itG (0 + 2 ^ (itG.B - 1)) bmNaN 0 = some (bmNaN.keys 0, bmNaN.values 0)) :=
  (C6_nonreflexive_key_low_bit tF hN itG bmNaN 0 (by decide) (by decide) (by decide)
    (by decide)).2 0 (by decide)

/-- C7: the lookup tag `tophashOf` is an 8-bit value at least `minTopHash`
and therefore never collides with any of the four reserved status bytes;
and `mapaccessK` consults both halves of a growing table: when the key's
old bucket is not yet evacuated it scans that old bucket chain — so an
entry still residing there is found — and when it is already evacuated it
scans the key's chain in the current bucket array. -/
theorem C7_lookup_tag_and_old_table (t : Maptype K V) (h : Hmap K V) (key : K)
    (old : Nat → List (Bmap K V)) (hob : h.oldbuckets = some old) (hc : ¬ h.count = 0) :
    (∀ hsh : Nat, minTopHash ≤ tophashOf hsh ∧ tophashOf hsh < 256 ∧
      tophashOf hsh ≠ empty ∧ tophashOf hsh ≠ evacuatedEmpty ∧
      tophashOf hsh ≠ evacuatedX ∧ tophashOf hsh ≠ evacuatedY) ∧
    (chainEvacuated (old ((t.hash key h.hash0) &&& ((1 <<< h.B - 1) >>> 1))) = false →
      mapaccessK t (some h) key =
        accessChain t key (tophashOf (t.hash key h.hash0))
          (old ((t.hash key h.hash0) &&& ((1 <<< h.B - 1) >>> 1))) ∧
      ((∃ bm ∈ old ((t.hash key h.hash0) &&& ((1 <<< h.B - 1) >>> 1)), ∃ s < bucketCnt,
          bm.tophash s = tophashOf (t.hash key h.hash0) ∧ t.equal key (bm.keys s) = true) →
        (mapaccessK t (some h) key).isSome)) ∧
    (chainEvacuated (old ((t.hash key h.hash0) &&& ((1 <<< h.B - 1) >>> 1))) = true →
      mapaccessK t (some h) key =
        accessChain t key (tophashOf (t.hash key h.hash0))
          (h.buckets ((t.hash key h.hash0) &&& (1 <<< h.B - 1)))) := by
  refine ⟨?_, ?_, fun hev => mapaccessK_new t h key old hob hc hev⟩
  · intro hsh
    have hge := tophashOf_ge hsh
    have hlt : tophashOf hsh < 256 := by
      unfold tophashOf minTopHash
      dsimp only
      split
      · omega
      · have : (hsh >>> (ptrSize * 8 - 8)) % 256 < 256 := Nat.mod_lt _ (by norm_num)
        omega
    unfold empty evacuatedEmpty evacuatedX evacuatedY minTopHash at *
    exact ⟨hge, hlt, by omega, by omega, by omega, by omega⟩
  · intro hev
    have heq := mapaccessK_old t h key old hob hc hev
    refine ⟨heq, fun hfound => ?_⟩
    rw [heq]
    exact accessChain_finds t key (tophashOf (t.hash key h.hash0)) _ hfound

/-- C7 witness: key 0 still lives in the un-evacuated old bucket of `hG`
and `mapaccessK` finds it there. -/
theorem C7_witness :
    chainEvacuated ((fun _ => [bmOld]) ((tN.hash 0 hG.hash0) &&& ((1 <<< hG.B - 1) >>> 1))) =
      false ∧
    (mapaccessK tN (some hG) 0).isSome ∧ mapaccessK tN (some hG) 0 = some (0, 10) :=
  ⟨by decide,
    ((C7_lookup_tag_and_old_table tN hG 0 (fun _ => [bmOld]) rfl (by decide)).2.1
      (by decide)).2 (by decide),
    by decide⟩

/-- C8: from every valid iterator state the advance terminates: the fueled
`next:` loop returns a result (never runs out of fuel); when the chain is
exhausted with the cursor back at `startBucket` after wrapping, the
advance reports exhaustion with nil key and value; and an exhausted
iterator yields nothing further under the traversal driver. -/
theorem C8_advance_terminates (t : Maptype K V) (h : Hmap K V) (it : Hiter K V)
    (hv : validIt it it.bucket it.wrapped) :
    (mapiternext t h it).isSome ∧
    (it.bptr = [] → it.bucket = it.startBucket → it.wrapped = true →
      mapiternext t h it = some { it with key := none, value := none }) ∧
    (∀ it' : Hiter K V, it'.key = none → ∀ fuel, runIter t h fuel it' = some []) := by
  refine ⟨?_, ?_, fun it' hk fuel => runIter_keyNone t h it' hk fuel⟩
  · rcases mapiternext_char t h it hv with ⟨_, hnext⟩ | ⟨p, b', c', i', cb', w', _, hnext, _⟩
    · rw [hnext]
      rfl
    · rw [hnext]
      rfl
  · intro hbp hbk hw
    have hstep := iterStep_exhaust t h it [] it.i it.checkBucket rfl
    have h1 : mapiternext t h it =
        iterNext t h it (2 ^ (it.B + 1)) it.startBucket [] it.i it.checkBucket true := by
      unfold mapiternext
      rw [hbp, hbk, hw]
    rw [h1, iterNext_of_step t h it it.startBucket [] it.i it.checkBucket true _ hstep, ← hw]

/-- C8 witness: the snapshot iterator over `hG` is valid and its advance
returns a result; a fully wrapped iterator at its start bucket reports
exhaustion. -/
theorem C8_witness :
    ((mapiternext tN hG itG).isSome ∧
      mapiternext tN hG { itG with wrapped := true } =
        some { { itG with wrapped := true } with key := none, value := none }) :=
  ⟨(C8_advance_terminates tN hG itG (by decide)).1,
    (C8_advance_terminates tN hG { itG with wrapped := true } (by decide)).2.1 rfl rfl rfl⟩

/-- C9 counterexample: the claim states the `checkBucket` filter is active
only while the iterator snapshot's bucket count equals the old
(pre-doubling) bucket count; but on the growing table `hG` the filter is
active (`checkBucket` set to bucket index 0, not the sentinel) for an
iterator whose snapshot bucket count `2^itG.B = 2` differs from the old
bucket count `2^(hG.B - 1) = 1`. -/
theorem C9_counterexample :
    (selectBucket hG itG 0).2 ≠ noCheck ∧ hG.oldbuckets ≠ none ∧
    ¬ 2 ^ itG.B = 2 ^ (hG.B - 1) := by
  refine ⟨by decide, by simp [hG], by decide⟩

/-- C9 (amended): the `checkBucket` filter is active only while a growth
is in progress and the iterator's snapshot of the bucket count equals the
current (post-doubling) bucket count (`it.B = h.B`); whenever no growth is
in progress or the snapshot differs from the current count, the selection
step sets `checkBucket` to the no-filter sentinel. -/
theorem C9_checkBucket_active_only_mid_growth (h : Hmap K V) (it : Hiter K V) (bucket : Nat) :
    ((selectBucket h it bucket).2 ≠ noCheck →
      h.oldbuckets ≠ none ∧ it.B = h.B ∧ (selectBucket h it bucket).2 = bucket) ∧
    ((h.oldbuckets = none ∨ ¬ it.B = h.B) → (selectBucket h it bucket).2 = noCheck) := by
  constructor
  · intro hact
    unfold selectBucket at *
    rcases hob : h.oldbuckets with _ | old
    · rw [hob] at hact
      dsimp only at hact
      exact absurd rfl hact
    · rw [hob] at hact
      dsimp only at hact ⊢
      by_cases hB : it.B = h.B
      · rw [if_pos hB] at hact ⊢
        by_cases hev : chainEvacuated (old (bucket &&& (1 <<< (it.B - 1) - 1)))
        · rw [if_neg (by simp [hev])] at hact ⊢
          exact absurd rfl hact
        · rw [if_pos (by simp [hev])] at hact ⊢
          exact ⟨by simp, hB, rfl⟩
      · rw [if_neg hB] at hact
        exact absurd rfl hact
  · intro hother
    unfold selectBucket
    rcases hob : h.oldbuckets with _ | old
    · rfl
    · rcases hother with hnone | hB
      · rw [hob] at hnone
        exact absurd hnone (by simp)
      · dsimp only
        rw [if_neg hB]

/-- C9 witness: on `hG`, an active filter implies growth and matching
snapshot; an iterator whose snapshot `B` is stale gets the sentinel. -/
theorem C9_witness :
    (hG.oldbuckets ≠ none ∧ itG.B = hG.B ∧ (selectBucket hG itG 0).2 = 0) ∧
    (selectBucket hG { itG with B := 0 } 0).2 = noCheck :=
  ⟨(C9_checkBucket_active_only_mid_growth hG itG 0).1 (by decide),
    (C9_checkBucket_active_only_mid_growth hG { itG with B := 0 } 0).2 (Or.inr (by decide))⟩

/-- C10: for every key, `mapaccessK` on a nil table or on a table whose
live-entry count is zero returns nil key and value. -/
theorem C10_lookup_nil_or_empty (t : Maptype K V) (key : K) :
    mapaccessK t none key = none ∧
    ∀ h : Hmap K V, h.count = 0 → mapaccessK t (some h) key = none := by
  constructor
  · rfl
  · intro h hc
    unfold mapaccessK
    dsimp only
    rw [if_pos hc]

/-- C10 witness: looking up key 5 in the zero-count table `hZ` returns
nothing. -/
theorem C10_witness : hZ.count = 0 ∧ mapaccessK tN (some hZ) 5 = none :=
  ⟨rfl, (C10_lookup_nil_or_empty tN 5).2 hZ rfl⟩

end Claims

end Randmap
